import Mathlib

/-!
Verification development for the affiliate link checker
(netlify function `check-links.js`).

JavaScript strings are modelled as `List Char`; `String` appears only at the
outermost API boundary. The WHATWG `URL` platform object used by
`sanitizeUrl`/`validateUrl` is modelled by an executable parser for absolute
`http:`/`https:` URLs (`parseHttpUrl`): scheme recognition, userinfo, host
lowercasing, numeric port with default-port elision, path normalization
(backslash conversion and dot-segment removal), query and fragment. Inputs
containing whitespace, IPv6 bracket hosts, or characters the real parser
would percent-encode are outside the model (the parser conservatively
fails on whitespace and keeps other characters verbatim); every theorem about
URLs quantifies only over what this parser accepts.
-/

namespace LinkCheck

/-! ## JavaScript string primitives on `List Char` -/

/-- Whitespace for the purposes of `String.prototype.trim` (ASCII subset). -/
def jsWs (c : Char) : Bool :=
  c == ' ' || c == '\t' || c == '\n' || c == '\r' || c == '\x0b' || c == '\x0c'

/-- Drop leading whitespace. -/
def dropWs : List Char → List Char
  | [] => []
  | c :: r => if jsWs c then dropWs r else c :: r

/-- `s.trim()`: drop whitespace at both ends. -/
def trimCL (l : List Char) : List Char :=
  ((dropWs ((dropWs l).reverse)).reverse)

/-- `s.startsWith(p)`, with the pattern first. -/
def startsWithCL : List Char → List Char → Bool
  | [], _ => true
  | _ :: _, [] => false
  | a :: as, b :: bs => a == b && startsWithCL as bs

/-- Strip a leading pattern, returning the remainder on success. -/
def stripLead : List Char → List Char → Option (List Char)
  | [], l => some l
  | _ :: _, [] => none
  | a :: as, b :: bs => if a = b then stripLead as bs else none

/-- Split at the first character satisfying `p`: the part before it and the
remainder (which starts with that character when nonempty). -/
def breakAt (p : Char → Bool) : List Char → List Char × List Char
  | [] => ([], [])
  | c :: r =>
    if p c then ([], c :: r)
    else
      let s := breakAt p r
      (c :: s.1, s.2)

/-- Split at the first occurrence of `sep`: returns the part before it and,
when `sep` occurs, the part after it. -/
def splitFirstAt (sep : Char) (l : List Char) : List Char × Option (List Char) :=
  match breakAt (fun c => c == sep) l with
  | (before, []) => (before, none)
  | (before, _ :: after) => (before, some after)

/-- Split at the last occurrence of `sep`, when it occurs. -/
def splitLastAt (sep : Char) (l : List Char) : Option (List Char × List Char) :=
  match splitFirstAt sep l.reverse with
  | (_, none) => none
  | (revAfter, some revBefore) => some (revBefore.reverse, revAfter.reverse)

/-- Split into separator-free segments; the empty list yields `[[]]`. -/
def splitSegs (sep : Char) : List Char → List (List Char)
  | [] => [[]]
  | c :: r =>
    if c = sep then [] :: splitSegs sep r
    else
      match splitSegs sep r with
      | [] => [[c]]
      | s :: ss => (c :: s) :: ss

/-- Join segments with a separator character. -/
def joinSegs (sep : Char) : List (List Char) → List Char
  | [] => []
  | [s] => s
  | s :: ss => s ++ sep :: joinSegs sep ss

/-- `haystack.includes(needle)` (substring occurrence). -/
def subOcc (needle : List Char) : List Char → Bool
  | [] => needle.isEmpty
  | c :: r => startsWithCL needle (c :: r) || subOcc needle r

/-- Decimal digit test. -/
def isDigitCL (c : Char) : Bool := 48 ≤ c.toNat && c.toNat ≤ 57

/-- Numeric value of a digit string (most significant first). -/
def digitsVal (l : List Char) : Nat :=
  l.foldl (fun a c => a * 10 + (c.toNat - 48)) 0

/-- Drop leading `'0'` characters. -/
def dropZeros : List Char → List Char
  | [] => []
  | c :: r => if c = '0' then dropZeros r else c :: r

/-- Canonical decimal form of a digit string: no leading zeros, `"0"` for zero.
This equals the decimal serialization of its numeric value. -/
def stripZeros (l : List Char) : List Char :=
  match dropZeros l with
  | [] => ['0']
  | r => r

/-! ## The WHATWG URL model (fragment used by the source) -/

/-- Parsed absolute `http(s)` URL record. `userinfo = []` means absent;
`port = none` means absent (no port, or the scheme's default port). -/
structure UrlRec where
  scheme : List Char
  userinfo : List Char
  host : List Char
  port : Option (List Char)
  path : List Char
  query : Option (List Char)
  fragment : Option (List Char)
  deriving DecidableEq

def schemeHttp : List Char := ['h', 't', 't', 'p']

def schemeHttps : List Char := ['h', 't', 't', 'p', 's']

def httpMark : List Char := ['h', 't', 't', 'p', ':', '/', '/']

def httpsMark : List Char := ['h', 't', 't', 'p', 's', ':', '/', '/']

def defaultPortVal (scheme : List Char) : Nat :=
  if scheme = schemeHttps then 443 else 80

/-- Port section parse: `none` is failure; `some none` a null port;
`some (some p)` a retained non-default port in canonical decimal form. -/
def parsePort (pr : List Char) (scheme : List Char) : Option (Option (List Char)) :=
  if pr = [] then some none
  else if pr.all isDigitCL then
    if digitsVal pr > 65535 then none
    else if digitsVal pr = defaultPortVal scheme then some none
    else some (some (stripZeros pr))
  else none

def segDot : List Char := ['.']

def segDotDot : List Char := ['.', '.']

/-- Fold of the URL path state: `".."` pops a segment, `"."` is skipped,
anything else is appended. -/
def collapseSegs (segs : List (List Char)) : List (List Char) :=
  segs.foldl
    (fun acc s =>
      if s = segDotDot then acc.dropLast
      else if s = segDot then acc
      else acc ++ [s]) []

/-- Whether the final raw segment is `"."` or `".."` (which leaves the
normalized path with a trailing slash). -/
def lastIsDot (segs : List (List Char)) : Bool :=
  match segs.getLast? with
  | some s => s == segDot || s == segDotDot
  | none => false

/-- Dot-segment removal; a trailing `"."`/`".."` leaves a trailing slash. -/
def normSegs (segs : List (List Char)) : List (List Char) :=
  if lastIsDot segs then collapseSegs segs ++ [[]] else collapseSegs segs

/-- Backslashes count as slashes in special-scheme paths. -/
def bslToSlash (c : Char) : Char := if c = '\\' then '/' else c

/-- Normalize the raw path section (everything from the first `/` or `\`):
empty becomes `/`, backslashes become slashes, dot segments are removed. -/
def normPathCL (raw : List Char) : List Char :=
  if raw = [] then ['/']
  else '/' :: joinSegs '/' (normSegs (splitSegs '/' ((raw.map bslToSlash).drop 1)))

/-- Parse everything after the `scheme://` marker. -/
def parseAfterScheme (scheme rest : List Char) : Option UrlRec :=
  let s1 := splitFirstAt '#' rest
  let s2 := splitFirstAt '?' s1.1
  let s3 := breakAt (fun c => c == '/' || c == '\\') s2.1
  let auth := s3.1
  let ui :=
    match splitLastAt '@' auth with
    | none => ([], auth)
    | some (u, hp) => (u, hp)
  let s4 := splitFirstAt ':' ui.2
  match parsePort ((s4.2).getD []) scheme with
  | none => none
  | some port =>
    let host := (s4.1).map Char.toLower
    if host = [] then none
    else
      some { scheme := scheme, userinfo := ui.1, host := host, port := port,
             path := normPathCL s3.2, query := s2.2, fragment := s1.2 }

/-- Model of `new URL(s)` restricted to absolute `http:`/`https:` inputs
(the only inputs `sanitizeUrl` produces); fails on any whitespace. -/
def parseHttpUrl (s : List Char) : Option UrlRec :=
  if s.any jsWs then none
  else
    match stripLead httpsMark s with
    | some rest => parseAfterScheme schemeHttps rest
    | none =>
      match stripLead httpMark s with
      | some rest => parseAfterScheme schemeHttp rest
      | none => none

/-- Serialized userinfo section (dropped when empty). -/
def uinfoPart (r : UrlRec) : List Char :=
  if r.userinfo = [] then [] else r.userinfo ++ ['@']

/-- Serialized port section. -/
def portPart (r : UrlRec) : List Char :=
  match r.port with | none => [] | some p => ':' :: p

/-- Serialized query section. -/
def queryPart (r : UrlRec) : List Char :=
  match r.query with | none => [] | some q => '?' :: q

/-- Serialized fragment section. -/
def fragPart (r : UrlRec) : List Char :=
  match r.fragment with | none => [] | some f => '#' :: f

/-- Serialized authority: userinfo, host and port. -/
def authPart (r : UrlRec) : List Char :=
  uinfoPart r ++ r.host ++ portPart r

/-- `url.href`: serialization of a parsed record. -/
def hrefOf (r : UrlRec) : List Char :=
  r.scheme ++ [':', '/', '/'] ++ authPart r ++ r.path ++ queryPart r ++ fragPart r

/-! ## `sanitizeUrl` and `validateUrl` -/

/-- A JavaScript value passed as one element of the `links` array:
either a string or anything else (`typeof url !== 'string'`). -/
inductive JsVal where
  | str (s : String)
  | nonString
  deriving DecidableEq

/-- `sanitizeUrl` on the character-list model: trim, prepend `https://` when
no `http://`/`https://` marker is present, parse, and return the href. -/
def sanitizeChars (l : List Char) : Option (List Char) :=
  let t := trimCL l
  let t2 :=
    if startsWithCL httpMark t || startsWithCL httpsMark t then t
    else httpsMark ++ t
  (parseHttpUrl t2).map hrefOf

/-- `sanitizeUrl` (source lines 107-121): `null` for non-strings, otherwise
the normalized href, `null` on parse failure. -/
def sanitizeUrl (v : JsVal) : Option String :=
  match v with
  | .nonString => none
  | .str s => (sanitizeChars s.data).map (fun l => String.mk l)

def allowedProtocols : List (List Char) :=
  [['h', 't', 't', 'p', ':'], ['h', 't', 't', 'p', 's', ':']]

def blockedHosts : List (List Char) :=
  ["localhost".data, "127.0.0.1".data, "0.0.0.0".data,
   "10.".data, "192.168.".data, "172.".data]

/-- `validateUrl` (source lines 123-142): re-parse, check the protocol
whitelist, and reject any hostname containing a blocked substring. -/
def validateUrl (u : String) : Bool :=
  match parseHttpUrl u.data with
  | none => false
  | some r =>
    if !(allowedProtocols.any (fun p => p == r.scheme ++ [':'])) then false
    else
      let hostname := r.host.map Char.toLower
      if blockedHosts.any (fun b => subOcc b hostname) then false
      else true

/-- Characters that can sit inside the authority (or a path segment) of a
parsed record: no whitespace and none of the delimiters that would have
terminated the component. -/
def goodAuthChar (c : Char) : Prop :=
  jsWs c = false ∧ c ≠ '/' ∧ c ≠ '\\' ∧ c ≠ '?' ∧ c ≠ '#'

/-- Well-formedness invariant of records produced by `parseHttpUrl`; exactly
what is needed for `hrefOf r` to parse back to `r`. -/
structure WfUrl (r : UrlRec) : Prop where
  scheme_ok : r.scheme = schemeHttp ∨ r.scheme = schemeHttps
  host_ne : r.host ≠ []
  host_chars : ∀ c ∈ r.host, goodAuthChar c ∧ c ≠ ':' ∧ c ≠ '@' ∧ Char.toLower c = c
  uinfo_chars : ∀ c ∈ r.userinfo, goodAuthChar c
  port_ok : ∀ p, r.port = some p → p.all isDigitCL = true ∧ stripZeros p = p ∧
    digitsVal p ≤ 65535 ∧ digitsVal p ≠ defaultPortVal r.scheme
  path_ok : ∃ segs, r.path = '/' :: joinSegs '/' segs ∧
    ∀ s ∈ segs, (∀ c ∈ s, goodAuthChar c) ∧ s ≠ segDot ∧ s ≠ segDotDot
  query_ok : ∀ q, r.query = some q → ∀ c ∈ q, jsWs c = false ∧ c ≠ '#'
  frag_ok : ∀ f, r.fragment = some f → ∀ c ∈ f, jsWs c = false

/-! ## Probe data model -/

/-- Result status category (`result.status` strings of the source). -/
inductive Status where
  | healthy
  | broken
  | warning
  | redirect
  | error
  deriving DecidableEq

/-- `result.statusCode`: an HTTP status number or a string error code. -/
inductive StatusCode where
  | num (code : Nat)
  | str (code : String)
  deriving DecidableEq

/-- One recorded redirect hop (`getRedirectChain` pushes
`{url, status, location}` objects). -/
structure RedirHop where
  url : String
  status : Nat
  location : String
  deriving DecidableEq

/-- The three response headers the probe captures. -/
structure CapturedHeaders where
  contentType : Option String
  server : Option String
  lastModified : Option String
  deriving DecidableEq

/-- A `ProbeResult` object. The `timestamp` field of the source (an ISO wall
clock string irrelevant to every claim) is not modelled. A JavaScript field
that is `null` or absent is `none`. -/
structure ProbeResult where
  url : String
  status : Status
  statusCode : StatusCode
  message : String
  responseTime : Nat
  redirectChain : Option (List RedirHop)
  sslValid : Option Bool
  headers : Option CapturedHeaders
  errorDetail : Option String
  deriving DecidableEq

/-- Caller options; `none` models an absent (undefined) field. -/
structure ProbeOptions where
  timeout : Option Nat
  followRedirects : Option Bool
  checkSSL : Option Bool
  userAgent : Option String
  deriving DecidableEq

/-- JavaScript `a || b` for an optionally-present string (`undefined` and
`""` are falsy). -/
def jsOrStr (a : Option String) (d : String) : String :=
  match a with
  | some s => if s = "" then d else s
  | none => d

/-! ## Outcome classification (`checkSingleLink`, success path) -/

/-- `getStatusMessage` (source lines 323-337): fixed reason-phrase table with
an `HTTP <code>` fallback. -/
def getStatusMessage (code : Nat) : String :=
  if code = 400 then "Bad Request"
  else if code = 401 then "Unauthorized"
  else if code = 403 then "Forbidden"
  else if code = 404 then "Not Found"
  else if code = 429 then "Too Many Requests"
  else if code = 500 then "Internal Server Error"
  else if code = 502 then "Bad Gateway"
  else if code = 503 then "Service Unavailable"
  else if code = 504 then "Gateway Timeout"
  else "HTTP " ++ toString code

/-- Classification chain of `checkSingleLink` (source lines 205-218) once a
response was obtained: status and message from the HTTP status and the
elapsed time. -/
def classifyResponse (httpStatus responseTime : Nat) : Status × String :=
  if httpStatus ≥ 400 then (.broken, getStatusMessage httpStatus)
  else if responseTime > 5000 then (.warning, "Slow Response")
  else if httpStatus ≥ 300 ∧ httpStatus < 400 then (.redirect, "Redirect")
  else (.healthy, "OK")

/-- Error-message table of the `catch` block (source lines 245-256), keyed on
the thrown error's `code` and `name`. -/
def errorMessage (code : Option String) (name : String) : String :=
  if code = some "ENOTFOUND" then "DNS Resolution Failed"
  else if code = some "ECONNREFUSED" then "Connection Refused"
  else if code = some "ETIMEDOUT" ∨ name = "FetchError" then "Request Timeout"
  else if code = some "CERT_HAS_EXPIRED" then "SSL Certificate Expired"
  else "Connection Failed"

/-! ## Redirect-chain tracer (`getRedirectChain`) -/

/-- Outcome of one manual-redirect `HEAD` request in the tracer: either a
thrown transport error, or a response with its status and optional
`location` header. -/
inductive TraceFetch where
  | fail
  | resp (status : Nat) (location : Option String)
  deriving DecidableEq

/-- The tracer's `while (maxRedirects > 0)` loop. `net` gives each request's
outcome; `resolve loc base` models `new URL(loc, base).href`, `none` when that
constructor throws (the surrounding catch then returns the chain collected so
far — the hop is pushed before the resolution). The fuel argument is the
`maxRedirects` counter, which the source decrements on every iteration that
continues, so the loop terminates. -/
def redirectLoop (net : String → TraceFetch) (resolve : String → String → Option String) :
    Nat → String → List RedirHop → List RedirHop
  | 0, _, acc => acc
  | fuel + 1, cur, acc =>
    match net cur with
    | .fail => acc
    | .resp st loc =>
      if 300 ≤ st ∧ st < 400 then
        match loc with
        | some l =>
          let acc2 := acc ++ [⟨cur, st, l⟩]
          match resolve l cur with
          | some nxt => redirectLoop net resolve fuel nxt acc2
          | none => acc2
        | none => acc
      else acc

/-- `getRedirectChain` (source lines 272-310): walk up to 5 hops with
redirects disabled; a nonempty chain, else `null`. -/
def getRedirectChain (net : String → TraceFetch)
    (resolve : String → String → Option String) (url : String) : Option (List RedirHop) :=
  let chain := redirectLoop net resolve 5 url []
  if chain.length > 0 then some chain else none

/-! ## Single-probe executor (`checkSingleLink`) -/

/-- Outcome of the probe's `fetch` call: a response (with final URL after
redirect following, status and headers) and elapsed wall time, or a thrown
error carrying `code`, `name` and `message` and the elapsed time. -/
inductive FetchOutcome where
  | ok (status : Nat) (finalUrl : String) (headers : CapturedHeaders) (elapsedMs : Nat)
  | thrown (code : Option String) (name : String) (msg : String) (elapsedMs : Nat)
  deriving DecidableEq

/-- `checkSingleLink` (source lines 182-270) as a function of the fetch
outcome (the network and the clock are inputs; `net`/`resolve` serve the
redirect tracer it may invoke). Every failure is converted into a result;
nothing escapes. -/
def checkSingleLink (net : String → TraceFetch)
    (resolve : String → String → Option String)
    (outcome : FetchOutcome) (url : String) (options : ProbeOptions) : ProbeResult :=
  match outcome with
  | .ok status finalUrl headers elapsed =>
    let cls := classifyResponse status elapsed
    let chain :=
      if options.followRedirects ≠ some false ∧ finalUrl ≠ url then
        getRedirectChain net resolve url
      else none
    { url := url
      status := cls.1
      statusCode := .num status
      message := cls.2
      responseTime := elapsed
      redirectChain := chain
      sslValid :=
        if startsWithCL "https:".data url.data ∧ options.checkSSL ≠ some false then
          some true
        else none
      headers := some headers
      errorDetail := none }
  | .thrown code name msg elapsed =>
    { url := url
      status := .broken
      statusCode := .str (jsOrStr code "ERROR")
      message := errorMessage code name
      responseTime := elapsed
      redirectChain := none
      sslValid := none
      headers := none
      errorDetail := some msg }

/-! ## Batch scheduler (`processLinksWithConcurrency`) -/

/-- `RATE_LIMITS` (source lines 8-12). -/
def maxLinksPerRequest : Nat := 50

def maxConcurrency : Nat := 8

/-- Settled state of one probe promise: `Promise.allSettled` yields either a
fulfilled value or a rejection reason (whose optional `message` is kept). A
rejection models a catastrophic fault while orchestrating the probe, not a
classified failure — `checkSingleLink` itself never rejects. -/
inductive Settled where
  | fulfilled (value : ProbeResult)
  | rejected (reasonMsg : Option String)
  deriving DecidableEq

/-- One output slot: the fulfilled value, or the synthetic
`PROCESSING_ERROR` result built from the slot's input URL. -/
def settleSlot (probe : String → Settled) (url : String) : ProbeResult :=
  match probe url with
  | .fulfilled r => r
  | .rejected reasonMsg =>
    { url := url
      status := .error
      statusCode := .str "PROCESSING_ERROR"
      message := "Failed to process"
      responseTime := 0
      redirectChain := none
      sslValid := none
      headers := none
      errorDetail := some (jsOrStr reasonMsg "Unknown error") }

/-- Fuel-driven body of `chunksOf`; the fuel dominates the number of loop
iterations, so `chunksOf` can pass the input length. -/
def chunksOfAux (fuel : Nat) (n : Nat) (l : List α) : List (List α) :=
  match fuel, l, n with
  | _, [], _ => []
  | _, _ :: _, 0 => []
  | 0, _ :: _, _ + 1 => []
  | f + 1, a :: t, m + 1 => (a :: t).take (m + 1) :: chunksOfAux f (m + 1) (t.drop m)

/-- The slicing loop `for (i = 0; i < links.length; i += maxConcurrency)`:
successive windows of `n` elements (`n = 0`, which would not terminate in the
source, yields no windows). -/
def chunksOf (n : Nat) (l : List α) : List (List α) :=
  chunksOfAux l.length n l

/-- Result sequence of `processLinksWithConcurrency` (source lines 144-180):
each window of 8 is probed, `Promise.allSettled` keeps slot order, and
settled slots are pushed window by window. `probe` assigns each URL its
settled outcome (one invocation per URL). -/
def processLinksWithConcurrency (probe : String → Settled) (links : List String) :
    List ProbeResult :=
  (chunksOf maxConcurrency links).flatMap (fun batch => batch.map (settleSlot probe))

/-- Observable scheduling step: probing one window, or sleeping. -/
inductive SchedEvent where
  | window (batch : List String)
  | delay (ms : Nat)
  deriving DecidableEq

/-- Timeline of the scheduler loop: each window is processed and then, when
there is more than one window in total, a 200 ms sleep runs (the source's
`if (batches.length > 1)` sits inside the loop body, after every window). -/
def schedulerTrace (links : List String) : List SchedEvent :=
  let batches := chunksOf maxConcurrency links
  batches.flatMap
    (fun b => .window b :: (if batches.length > 1 then [.delay 200] else []))

/-- Number of sleep events in a trace. -/
def delayCount (tr : List SchedEvent) : Nat :=
  tr.countP (fun e => match e with | .delay _ => true | _ => false)

/-! ## Summary aggregator (`generateSummary`) -/

/-- State of the summary object's `error` property: it is never initialized
(line 340 creates only the four named counters), so it is `undefined` until
an increment `summary[result.status]++` with `status = 'error'` turns it into
`NaN` (`undefined + 1`), where it stays. -/
inductive ErrCounter where
  | absent
  | nan
  deriving DecidableEq

/-- The summary object (source lines 339-367). `averageResponseTime` is
`none` for an empty result list, where the source computes `NaN`. -/
structure Summary where
  total : Nat
  healthy : Nat
  broken : Nat
  warning : Nat
  redirect : Nat
  errCounter : ErrCounter
  averageResponseTime : Option Nat
  errors : List (String × String)
  deriving DecidableEq

/-- One `results.forEach` step: `summary[result.status]++` plus the error
collection (`if (result.error)`; the empty string is falsy). -/
def summaryStep (s : Summary) (r : ProbeResult) : Summary :=
  let s :=
    match r.status with
    | .healthy => { s with healthy := s.healthy + 1 }
    | .broken => { s with broken := s.broken + 1 }
    | .warning => { s with warning := s.warning + 1 }
    | .redirect => { s with redirect := s.redirect + 1 }
    | .error => { s with errCounter := .nan }
  match r.errorDetail with
  | some m => if m = "" then s else { s with errors := s.errors ++ [(r.url, m)] }
  | none => s

/-- `generateSummary` (source lines 339-367): tally per status, collect
error details, average the response times with `Math.round`. -/
def generateSummary (results : List ProbeResult) : Summary :=
  let base : Summary :=
    { total := results.length, healthy := 0, broken := 0, warning := 0,
      redirect := 0, errCounter := .absent, averageResponseTime := none, errors := [] }
  let s := results.foldl summaryStep base
  let totalRT := (results.map (fun r => r.responseTime)).sum
  { s with
    averageResponseTime :=
      if results.length = 0 then none
      else some ((2 * totalRT + results.length) / (2 * results.length)) }

/-- Sum of the values of the summary's per-status counters: the four
initialized counters plus the `error` property when it exists; `none` when
that property holds `NaN` (a sum with `NaN` is `NaN`). -/
def sumCounts (s : Summary) : Option Nat :=
  match s.errCounter with
  | .absent => some (s.healthy + s.broken + s.warning + s.redirect)
  | .nan => none

/-! ## Request handler (`exports.handler`, POST path) -/

/-- The parsed request body's relevant shape: `JSON.parse` threw (malformed
body), `links` missing or not an array, or an array of values. -/
inductive BatchRequest where
  | malformedBody
  | linksNotArray
  | links (vals : List JsVal)

/-- What the handler replies: a rejection `(HTTP status, error message)`
produced before any probing, or the processed batch. -/
inductive HandlerOutcome where
  | rejected (httpStatus : Nat) (errMsg : String)
  | processed (validated : List String) (results : List ProbeResult) (summary : Summary)

/-- The handler's POST path (source lines 40-104): input validation and
sanitization, then concurrent processing and the summary. A thrown
`JSON.parse` lands in the catch block (HTTP 500). -/
def handler (probe : String → Settled) (req : BatchRequest) : HandlerOutcome :=
  match req with
  | .malformedBody => .rejected 500 "Internal server error"
  | .linksNotArray => .rejected 400 "Invalid links array"
  | .links vals =>
    if vals.length = 0 then .rejected 400 "Invalid links array"
    else if vals.length > maxLinksPerRequest then
      .rejected 429 "Maximum 50 links per request"
    else
      let sanitized :=
        (vals.filterMap sanitizeUrl).filter (fun l => l ≠ "" && validateUrl l)
      if sanitized.length = 0 then .rejected 400 "No valid URLs provided"
      else
        let results := processLinksWithConcurrency probe sanitized
        .processed sanitized results (generateSummary results)

/-! ## Concrete inputs used by the witnesses -/

/-- Neutral options object (every field undefined). -/
def demoOptions : ProbeOptions := ⟨none, none, none, none⟩

/-- A healthy fulfilled probe of `u` (200 in 50 ms, no redirect). -/
def demoOkProbe (u : String) : ProbeResult :=
  checkSingleLink (fun _ => .fail) (fun _ _ => none)
    (.ok 200 u ⟨none, none, none⟩ 50) u demoOptions

/-- Two-link batch whose second probe faults catastrophically. -/
def demoLinksC6 : List String := ["https://ok.example/", "https://boom.example/"]

def demoProbeC6 : String → Settled := fun u =>
  if u = "https://boom.example/" then .rejected (some "boom")
  else .fulfilled (demoOkProbe u)

/-- Nine validated links: two concurrency windows of sizes 8 and 1. -/
def demoLinks9 : List String :=
  ["https://a.example/", "https://b.example/", "https://c.example/",
   "https://d.example/", "https://e.example/", "https://f.example/",
   "https://g.example/", "https://h.example/", "https://i.example/"]

/-- The synthetic result the scheduler itself produces for a rejected slot. -/
def demoErrorResult : ProbeResult :=
  settleSlot (fun _ => .rejected none) "https://x.example/"

/-- 51 syntactically valid links (over the 50-link cap). -/
def demoLinks51 : List JsVal := List.replicate 51 (.str "https://example.com")

/-- A probe whose every promise rejects without a reason message. -/
def demoProbeC7 : String → Settled := fun _ => .rejected none

/-- A network that always answers 301 with the same absolute location. -/
def demoNet : String → TraceFetch := fun _ => .resp 301 (some "https://n.example/")

def demoResolve : String → String → Option String := fun l _ => some l

/-- A network where every request throws. -/
def demoNetFail : String → TraceFetch := fun _ => .fail

/-- The five hops `demoNet` produces from the start URL. -/
def demoChain : List RedirHop :=
  [⟨"https://start.example/", 301, "https://n.example/"⟩,
   ⟨"https://n.example/", 301, "https://n.example/"⟩,
   ⟨"https://n.example/", 301, "https://n.example/"⟩,
   ⟨"https://n.example/", 301, "https://n.example/"⟩,
   ⟨"https://n.example/", 301, "https://n.example/"⟩]

/-! ## Helper lemmas: character-list utilities -/

theorem dropWs_eq_self (l : List Char) (h : ∀ c ∈ l, jsWs c = false) :
    dropWs l = l := by
  cases l with
  | nil => rfl
  | cons c r => simp [dropWs, h c (by simp)]

theorem trimCL_eq_self (l : List Char) (h : ∀ c ∈ l, jsWs c = false) :
    trimCL l = l := by
  unfold trimCL
  rw [dropWs_eq_self l h, dropWs_eq_self l.reverse (by intro c hc; exact h c (List.mem_reverse.mp hc)),
    List.reverse_reverse]

theorem startsWithCL_append (p l : List Char) : startsWithCL p (p ++ l) = true := by
  induction p with
  | nil => rfl
  | cons a as ih => simp [startsWithCL, ih]

theorem stripLead_append (p l : List Char) : stripLead p (p ++ l) = some l := by
  induction p with
  | nil => rfl
  | cons a as ih => simp [stripLead, ih]

theorem stripLead_eq_some (p s r : List Char) (h : stripLead p s = some r) :
    s = p ++ r := by
  induction p generalizing s with
  | nil => simpa [stripLead, eq_comm] using h
  | cons a as ih =>
    cases s with
    | nil => simp [stripLead] at h
    | cons b bs =>
      by_cases hab : a = b
      · subst hab
        simp [stripLead] at h
        simpa using ih bs h
      · simp [stripLead, hab] at h

theorem breakAt_of_none (p : Char → Bool) (l : List Char)
    (h : ∀ c ∈ l, p c = false) : breakAt p l = (l, []) := by
  induction l with
  | nil => rfl
  | cons c r ih =>
    simp [breakAt, h c (by simp), ih (fun c hc => h c (by simp [hc]))]

theorem breakAt_append (p : Char → Bool) (A B : List Char) (c : Char)
    (hA : ∀ x ∈ A, p x = false) (hc : p c = true) :
    breakAt p (A ++ c :: B) = (A, c :: B) := by
  induction A with
  | nil => simp [breakAt, hc]
  | cons a as ih =>
    simp only [List.cons_append, breakAt, hA a (by simp)]
    simp [ih (fun x hx => hA x (by simp [hx]))]

theorem breakAt_eq_append (p : Char → Bool) (l : List Char) :
    (breakAt p l).1 ++ (breakAt p l).2 = l := by
  induction l with
  | nil => rfl
  | cons c r ih =>
    by_cases h : p c = true
    · simp [breakAt, h]
    · simp only [breakAt, Bool.not_eq_true] at *
      simp [h, ih]

theorem breakAt_fst_spec (p : Char → Bool) (l : List Char) :
    ∀ x ∈ (breakAt p l).1, x ∈ l ∧ p x = false := by
  induction l with
  | nil => simp [breakAt]
  | cons c r ih =>
    by_cases h : p c = true
    · simp [breakAt, h]
    · simp only [breakAt, Bool.not_eq_true] at *
      simp only [h, if_false]
      intro x hx
      rcases List.mem_cons.mp hx with rfl | hx2
      · exact ⟨by simp, h⟩
      · exact ⟨by simp [(ih x hx2).1], (ih x hx2).2⟩

theorem breakAt_snd_sub (p : Char → Bool) (l : List Char) :
    ∀ x ∈ (breakAt p l).2, x ∈ l := by
  intro x hx
  rw [← breakAt_eq_append p l]
  exact List.mem_append.mpr (Or.inr hx)

theorem breakAt_snd_head (p : Char → Bool) (l : List Char) (c : Char) (r : List Char)
    (h : (breakAt p l).2 = c :: r) : p c = true := by
  induction l with
  | nil => simp [breakAt] at h
  | cons a as ih =>
    by_cases ha : p a = true
    · simp [breakAt, ha] at h
      rw [← h.1]; exact ha
    · simp only [breakAt, Bool.not_eq_true] at *
      simp only [ha, if_false] at h
      exact ih h

theorem splitFirstAt_of_not_mem (sep : Char) (l : List Char) (h : sep ∉ l) :
    splitFirstAt sep l = (l, none) := by
  unfold splitFirstAt
  rw [breakAt_of_none (fun c => c == sep) l
    (by intro c hc; simp; intro hcc; exact absurd (hcc ▸ hc) h)]

theorem splitFirstAt_append (sep : Char) (A B : List Char) (hA : sep ∉ A) :
    splitFirstAt sep (A ++ sep :: B) = (A, some B) := by
  unfold splitFirstAt
  rw [breakAt_append (fun c => c == sep) A B sep
    (by intro x hx; simp; intro hxx; exact absurd (hxx ▸ hx) hA) (by simp)]

theorem splitFirstAt_fst_spec (sep : Char) (l : List Char) :
    ∀ x ∈ (splitFirstAt sep l).1, x ∈ l ∧ x ≠ sep := by
  intro x hx
  have hb : ∀ y ∈ (breakAt (fun c => c == sep) l).1, y ∈ l ∧ (y == sep) = false :=
    breakAt_fst_spec _ l
  unfold splitFirstAt at hx
  rcases hbk : breakAt (fun c => c == sep) l with ⟨before, after⟩
  rw [hbk] at hb
  rcases after with _ | ⟨c, r⟩ <;>
    · rw [hbk] at hx
      simp at hx
      have := hb x hx
      exact ⟨this.1, by simpa using this.2⟩

theorem splitFirstAt_snd_sub (sep : Char) (l t : List Char)
    (h : (splitFirstAt sep l).2 = some t) : ∀ x ∈ t, x ∈ l := by
  intro x hx
  unfold splitFirstAt at h
  rcases hbk : breakAt (fun c => c == sep) l with ⟨before, after⟩
  rw [hbk] at h
  rcases after with _ | ⟨c, r⟩
  · simp at h
  · simp at h
    subst h
    exact breakAt_snd_sub _ l x (by rw [hbk]; simp [hx])

theorem splitFirstAt_recons (sep : Char) (l t : List Char)
    (h : (splitFirstAt sep l).2 = some t) :
    l = (splitFirstAt sep l).1 ++ sep :: t := by
  unfold splitFirstAt at *
  rcases hbk : breakAt (fun c => c == sep) l with ⟨before, after⟩
  rw [hbk] at h
  rcases after with _ | ⟨c, r⟩
  · exact Option.noConfusion h
  · have ht : r = t := Option.some.inj h
    have hc : c = sep := by
      simpa using breakAt_snd_head (fun c => c == sep) l c r (by rw [hbk])
    have happ := breakAt_eq_append (fun c => c == sep) l
    rw [hbk] at happ
    show l = before ++ sep :: t
    rw [← happ, hc, ht]

theorem splitFirstAt_none_fst (sep : Char) (l : List Char)
    (h : (splitFirstAt sep l).2 = none) : (splitFirstAt sep l).1 = l := by
  unfold splitFirstAt at *
  rcases hbk : breakAt (fun c => c == sep) l with ⟨before, after⟩
  rw [hbk] at h
  rcases after with _ | ⟨c, r⟩
  · have happ := breakAt_eq_append (fun c => c == sep) l
    rw [hbk] at happ
    show before = l
    simpa using happ
  · exact Option.noConfusion h

theorem splitLastAt_of_not_mem (sep : Char) (l : List Char) (h : sep ∉ l) :
    splitLastAt sep l = none := by
  unfold splitLastAt
  rw [splitFirstAt_of_not_mem sep l.reverse (by simpa using h)]

theorem splitLastAt_append (sep : Char) (A B : List Char) (hB : sep ∉ B) :
    splitLastAt sep (A ++ sep :: B) = some (A, B) := by
  unfold splitLastAt
  have : (A ++ sep :: B).reverse = B.reverse ++ sep :: A.reverse := by
    simp [List.reverse_append]
  rw [this, splitFirstAt_append sep B.reverse A.reverse (by simpa using hB)]
  simp

theorem splitLastAt_eq_some (sep : Char) (l a b : List Char)
    (h : splitLastAt sep l = some (a, b)) : l = a ++ sep :: b ∧ sep ∉ b := by
  unfold splitLastAt at h
  rcases hsf : splitFirstAt sep l.reverse with ⟨revAfter, osnd⟩
  rw [hsf] at h
  rcases osnd with _ | t
  · simp at h
  · simp at h
    have hrec := splitFirstAt_recons sep l.reverse t (by rw [hsf])
    rw [hsf] at hrec
    have hfst := splitFirstAt_fst_spec sep l.reverse
    rw [hsf] at hfst
    constructor
    · have h2 : l.reverse.reverse = (t.reverse ++ sep :: revAfter.reverse) := by
        rw [hrec]
        simp [List.reverse_append]
      rw [List.reverse_reverse] at h2
      rw [h2, ← h.1, ← h.2]
    · rw [← h.2]
      intro hmem
      have := hfst sep (by simpa using hmem)
      exact this.2 rfl

theorem splitSegs_ne_nil (sep : Char) (l : List Char) : splitSegs sep l ≠ [] := by
  cases l with
  | nil => simp [splitSegs]
  | cons c r =>
    by_cases h : c = sep
    · simp [splitSegs, h]
    · simp only [splitSegs, if_neg h]
      rcases hs : splitSegs sep r with _ | ⟨s, ss⟩ <;> simp

theorem joinSegs_splitSegs (sep : Char) (l : List Char) :
    joinSegs sep (splitSegs sep l) = l := by
  induction l with
  | nil => rfl
  | cons c r ih =>
    by_cases h : c = sep
    · simp only [splitSegs, if_pos h]
      rcases hs : splitSegs sep r with _ | ⟨s, ss⟩
      · exact absurd hs (splitSegs_ne_nil sep r)
      · rw [hs] at ih
        show [] ++ sep :: joinSegs sep (s :: ss) = c :: r
        rw [h]
        simp [ih]
    · simp only [splitSegs, if_neg h]
      rcases hs : splitSegs sep r with _ | ⟨s, ss⟩
      · exact absurd hs (splitSegs_ne_nil sep r)
      · rw [hs] at ih
        cases ss with
        | nil => show c :: s = c :: r; simpa using ih
        | cons s2 ss2 =>
          show (c :: s) ++ sep :: joinSegs sep (s2 :: ss2) = c :: r
          simpa using ih

theorem splitSegs_singleton (sep : Char) (s : List Char) (h : sep ∉ s) :
    splitSegs sep s = [s] := by
  induction s with
  | nil => rfl
  | cons c r ih =>
    have hc : c ≠ sep := fun hcc => h (by simp [hcc])
    simp only [splitSegs, if_neg hc]
    rw [ih (fun hm => h (by simp [hm]))]

theorem splitSegs_append_sep (sep : Char) (s rest : List Char) (hs : sep ∉ s) :
    splitSegs sep (s ++ sep :: rest) = s :: splitSegs sep rest := by
  induction s with
  | nil => simp [splitSegs]
  | cons c r ih =>
    have hc : c ≠ sep := fun hcc => hs (by simp [hcc])
    simp only [List.cons_append, splitSegs, if_neg hc, List.append_eq]
    rw [ih (fun hm => hs (by simp [hm]))]

theorem splitSegs_joinSegs (sep : Char) (L : List (List Char)) (hne : L ≠ [])
    (h : ∀ s ∈ L, sep ∉ s) : splitSegs sep (joinSegs sep L) = L := by
  induction L with
  | nil => exact absurd rfl hne
  | cons s ss ih =>
    cases ss with
    | nil => exact splitSegs_singleton sep s (h s (by simp))
    | cons s2 ss2 =>
      show splitSegs sep (s ++ sep :: joinSegs sep (s2 :: ss2)) = s :: s2 :: ss2
      rw [splitSegs_append_sep sep s _ (h s (by simp)),
        ih (by simp) (fun x hx => h x (by simp [hx]))]

theorem mem_splitSegs_chars (sep : Char) (l : List Char) :
    ∀ s ∈ splitSegs sep l, ∀ c ∈ s, c ∈ l ∧ c ≠ sep := by
  induction l with
  | nil => simp [splitSegs]
  | cons a r ih =>
    by_cases h : a = sep
    · subst h
      simp only [splitSegs, if_pos rfl]
      intro s hs c hc
      rcases List.mem_cons.mp hs with rfl | hs2
      · simp at hc
      · have := ih s hs2 c hc
        exact ⟨by simp [this.1], this.2⟩
    · simp only [splitSegs, if_neg h]
      rcases hs : splitSegs sep r with _ | ⟨s0, ss0⟩
      · exact absurd hs (splitSegs_ne_nil sep r)
      · intro s hsmem c hc
        rcases List.mem_cons.mp hsmem with rfl | hs2
        · rcases List.mem_cons.mp hc with rfl | hc2
          · exact ⟨by simp, h⟩
          · have := ih s0 (by rw [hs]; simp) c hc2
            exact ⟨by simp [this.1], this.2⟩
        · have := ih s (by rw [hs]; simp [hs2]) c hc
          exact ⟨by simp [this.1], this.2⟩

theorem breakAt_snd_ne_nil (p : Char → Bool) (l : List Char) (c : Char)
    (hc : c ∈ l) (hp : p c = true) : (breakAt p l).2 ≠ [] := by
  induction l with
  | nil => simp at hc
  | cons a r ih =>
    by_cases ha : p a = true
    · simp [breakAt, ha]
    · simp only [breakAt, Bool.not_eq_true] at *
      simp only [ha, if_false]
      rcases List.mem_cons.mp hc with rfl | hc2
      · rw [hp] at ha; simp at ha
      · exact ih hc2

theorem splitLastAt_none_not_mem (sep : Char) (l : List Char)
    (h : splitLastAt sep l = none) : sep ∉ l := by
  intro hmem
  unfold splitLastAt at h
  rcases hsf : splitFirstAt sep l.reverse with ⟨revAfter, osnd⟩
  rw [hsf] at h
  rcases osnd with _ | t
  · have hne := breakAt_snd_ne_nil (fun c => c == sep) l.reverse sep
      (by simpa using hmem) (by simp)
    unfold splitFirstAt at hsf
    rcases hbk : breakAt (fun c => c == sep) l.reverse with ⟨b2, a2⟩
    rw [hbk] at hsf
    rcases a2 with _ | ⟨c2, r2⟩
    · rw [hbk] at hne
      exact hne rfl
    · exact Option.noConfusion (congrArg Prod.snd hsf)
  · exact Option.noConfusion h

/-! ## Helper lemmas: path segment normalization -/

theorem collapseFold_mem (segs : List (List Char)) :
    ∀ acc : List (List Char), ∀ x ∈ segs.foldl
      (fun acc s =>
        if s = segDotDot then acc.dropLast
        else if s = segDot then acc else acc ++ [s]) acc,
      x ∈ acc ∨ x ∈ segs := by
  induction segs with
  | nil => intro acc x hx; exact Or.inl hx
  | cons s rest ih =>
    intro acc x hx
    simp only [List.foldl_cons] at hx
    rcases ih _ x hx with hx2 | hx2
    · by_cases h1 : s = segDotDot
      · rw [if_pos h1] at hx2
        exact Or.inl (List.dropLast_subset _ hx2)
      · rw [if_neg h1] at hx2
        by_cases h2 : s = segDot
        · rw [if_pos h2] at hx2
          exact Or.inl hx2
        · rw [if_neg h2] at hx2
          rcases List.mem_append.mp hx2 with hx3 | hx3
          · exact Or.inl hx3
          · simp at hx3
            exact Or.inr (by simp [hx3])
    · exact Or.inr (by simp [hx2])

theorem collapseFold_dotfree (segs : List (List Char)) :
    ∀ acc : List (List Char), (∀ x ∈ acc, x ≠ segDot ∧ x ≠ segDotDot) →
      ∀ x ∈ segs.foldl
        (fun acc s =>
          if s = segDotDot then acc.dropLast
          else if s = segDot then acc else acc ++ [s]) acc,
        x ≠ segDot ∧ x ≠ segDotDot := by
  induction segs with
  | nil => intro acc hacc x hx; exact hacc x hx
  | cons s rest ih =>
    intro acc hacc x hx
    simp only [List.foldl_cons] at hx
    refine ih _ ?_ x hx
    by_cases h1 : s = segDotDot
    · rw [if_pos h1]
      exact fun y hy => hacc y (List.dropLast_subset _ hy)
    · rw [if_neg h1]
      by_cases h2 : s = segDot
      · rw [if_pos h2]; exact hacc
      · rw [if_neg h2]
        intro y hy
        rcases List.mem_append.mp hy with hy2 | hy2
        · exact hacc y hy2
        · simp at hy2
          subst hy2
          exact ⟨h2, h1⟩

theorem collapseFold_of_clean (segs : List (List Char)) :
    ∀ acc : List (List Char), (∀ s ∈ segs, s ≠ segDot ∧ s ≠ segDotDot) →
      segs.foldl
        (fun acc s =>
          if s = segDotDot then acc.dropLast
          else if s = segDot then acc else acc ++ [s]) acc = acc ++ segs := by
  induction segs with
  | nil => intro acc _; simp
  | cons s rest ih =>
    intro acc h
    have hs := h s (by simp)
    simp only [List.foldl_cons, if_neg hs.2, if_neg hs.1]
    rw [ih _ (fun x hx => h x (by simp [hx]))]
    simp

theorem mem_collapseSegs (segs : List (List Char)) :
    ∀ x ∈ collapseSegs segs, x ∈ segs := by
  intro x hx
  rcases collapseFold_mem segs [] x hx with h | h
  · simp at h
  · exact h

theorem collapseSegs_dotfree (segs : List (List Char)) :
    ∀ x ∈ collapseSegs segs, x ≠ segDot ∧ x ≠ segDotDot := by
  intro x hx
  exact collapseFold_dotfree segs [] (by simp) x hx

theorem mem_normSegs (segs : List (List Char)) :
    ∀ x ∈ normSegs segs, x ∈ segs ∨ x = [] := by
  intro x hx
  unfold normSegs at hx
  by_cases hd : lastIsDot segs = true
  · rw [if_pos hd] at hx
    rcases List.mem_append.mp hx with hx2 | hx2
    · exact Or.inl (mem_collapseSegs segs x hx2)
    · simp at hx2
      exact Or.inr hx2
  · rw [if_neg hd] at hx
    exact Or.inl (mem_collapseSegs segs x hx)

theorem normSegs_dotfree (segs : List (List Char)) :
    ∀ x ∈ normSegs segs, x ≠ segDot ∧ x ≠ segDotDot := by
  intro x hx
  unfold normSegs at hx
  by_cases hd : lastIsDot segs = true
  · rw [if_pos hd] at hx
    rcases List.mem_append.mp hx with hx2 | hx2
    · exact collapseSegs_dotfree segs x hx2
    · simp at hx2
      subst hx2
      exact ⟨by simp [segDot], by simp [segDotDot]⟩
  · rw [if_neg hd] at hx
    exact collapseSegs_dotfree segs x hx

theorem normSegs_of_clean (segs : List (List Char))
    (h : ∀ s ∈ segs, s ≠ segDot ∧ s ≠ segDotDot) : normSegs segs = segs := by
  have hdot : lastIsDot segs = false := by
    unfold lastIsDot
    rcases hl : segs.getLast? with _ | s
    · rfl
    · have hs := h s (List.mem_of_mem_getLast? (by rw [hl]; simp))
      simp [hs.1, hs.2]
  unfold normSegs collapseSegs
  rw [hdot]
  simp only [Bool.false_eq_true, if_false]
  simpa using collapseFold_of_clean segs [] h

/-! ## Helper lemmas: digit strings -/

theorem digitsVal_cons_zero (r : List Char) : digitsVal ('0' :: r) = digitsVal r := by
  show List.foldl _ (0 * 10 + ('0'.toNat - 48)) r = List.foldl _ 0 r
  congr 1

theorem dropZeros_cons_zero (r : List Char) : dropZeros ('0' :: r) = dropZeros r := by
  simp [dropZeros]

theorem dropZeros_cons_ne (c : Char) (r : List Char) (h : c ≠ '0') :
    dropZeros (c :: r) = c :: r := by
  simp [dropZeros, h]

theorem dropZeros_val (l : List Char) : digitsVal (dropZeros l) = digitsVal l := by
  induction l with
  | nil => rfl
  | cons c r ih =>
    by_cases h : c = '0'
    · subst h
      rw [dropZeros_cons_zero, ih, digitsVal_cons_zero]
    · rw [dropZeros_cons_ne c r h]

theorem dropZeros_nil_val (l : List Char) (h : dropZeros l = []) : digitsVal l = 0 := by
  induction l with
  | nil => rfl
  | cons c r ih =>
    by_cases hc : c = '0'
    · subst hc
      rw [dropZeros_cons_zero] at h
      rw [digitsVal_cons_zero, ih h]
    · rw [dropZeros_cons_ne c r hc] at h
      exact absurd h (by simp)

theorem stripZeros_val (l : List Char) : digitsVal (stripZeros l) = digitsVal l := by
  unfold stripZeros
  rcases hd : dropZeros l with _ | ⟨c, r⟩
  · show digitsVal ['0'] = digitsVal l
    rw [dropZeros_nil_val l hd]
    rfl
  · show digitsVal (c :: r) = digitsVal l
    rw [← hd, dropZeros_val]

theorem dropZeros_head_ne (l : List Char) (c : Char) (r : List Char)
    (h : dropZeros l = c :: r) : c ≠ '0' := by
  induction l with
  | nil => simp [dropZeros] at h
  | cons a t ih =>
    by_cases ha : a = '0'
    · subst ha
      rw [dropZeros_cons_zero] at h
      exact ih h
    · rw [dropZeros_cons_ne a t ha] at h
      injection h with h1 h2
      rw [← h1]
      exact ha

theorem stripZeros_idem (l : List Char) : stripZeros (stripZeros l) = stripZeros l := by
  unfold stripZeros
  rcases hd : dropZeros l with _ | ⟨c, r⟩
  · decide
  · show stripZeros (c :: r) = c :: r
    have hc := dropZeros_head_ne l c r hd
    unfold stripZeros
    rw [dropZeros_cons_ne c r hc]

theorem mem_dropZeros (l : List Char) : ∀ x ∈ dropZeros l, x ∈ l := by
  induction l with
  | nil => simp [dropZeros]
  | cons c r ih =>
    by_cases h : c = '0'
    · subst h
      rw [dropZeros_cons_zero]
      exact fun x hx => by simp [ih x hx]
    · rw [dropZeros_cons_ne c r h]
      exact fun x hx => hx

theorem stripZeros_all_digits (l : List Char) (h : l.all isDigitCL = true) :
    (stripZeros l).all isDigitCL = true := by
  rw [List.all_eq_true] at *
  unfold stripZeros
  rcases hd : dropZeros l with _ | ⟨c, r⟩
  · intro x hx
    simp at hx
    subst hx
    decide
  · intro x hx
    exact h x (mem_dropZeros l x (by rw [hd]; exact hx))

theorem stripZeros_ne_nil (l : List Char) : stripZeros l ≠ [] := by
  unfold stripZeros
  rcases hd : dropZeros l with _ | ⟨c, r⟩ <;> simp

/-! ## Helper lemmas: ASCII lowercasing -/

theorem toNat_ofNat_valid (n : Nat) (h : n < 55296) : (Char.ofNat n).toNat = n := by
  have hv : n.isValidChar := Or.inl h
  simp only [Char.ofNat, hv, dif_pos]
  simp [Char.ofNatAux, Char.toNat, UInt32.toNat, UInt32.ofNatCore]

theorem toLower_toNat_of_upper (c : Char) (h1 : 65 ≤ c.toNat) (h2 : c.toNat ≤ 90) :
    (Char.toLower c).toNat = c.toNat + 32 := by
  unfold Char.toLower
  rw [if_pos ⟨h1, h2⟩]
  exact toNat_ofNat_valid _ (by omega)

theorem toLower_eq_self (c : Char) (h : ¬(65 ≤ c.toNat ∧ c.toNat ≤ 90)) :
    Char.toLower c = c := by
  unfold Char.toLower
  exact if_neg h

theorem toLower_idem (c : Char) : Char.toLower (Char.toLower c) = Char.toLower c := by
  by_cases h : 65 ≤ c.toNat ∧ c.toNat ≤ 90
  · have hn := toLower_toNat_of_upper c h.1 h.2
    exact toLower_eq_self _ (by rw [hn]; omega)
  · rw [toLower_eq_self c h]
    exact toLower_eq_self c h

theorem good_of_lower_range (c : Char) (h1 : 97 ≤ c.toNat) (h2 : c.toNat ≤ 122) :
    (goodAuthChar c ∧ c ≠ ':' ∧ c ≠ '@') ∧ Char.toLower c = c := by
  refine ⟨⟨⟨?_, ?_, ?_, ?_, ?_⟩, ?_, ?_⟩, toLower_eq_self c (by omega)⟩
  · simp only [jsWs, Bool.or_eq_false_iff]
    refine ⟨⟨⟨⟨⟨?_, ?_⟩, ?_⟩, ?_⟩, ?_⟩, ?_⟩ <;>
      · simp only [beq_eq_false_iff_ne, ne_eq]
        rintro rfl
        revert h1
        decide
  all_goals (rintro rfl; revert h1; decide)

theorem toLower_keeps_host_char (c : Char)
    (h : goodAuthChar c ∧ c ≠ ':' ∧ c ≠ '@') :
    (goodAuthChar (Char.toLower c) ∧ Char.toLower c ≠ ':' ∧ Char.toLower c ≠ '@') ∧
      Char.toLower (Char.toLower c) = Char.toLower c := by
  by_cases hu : 65 ≤ c.toNat ∧ c.toNat ≤ 90
  · have hn := toLower_toNat_of_upper c hu.1 hu.2
    exact good_of_lower_range _ (by omega) (by omega)
  · rw [toLower_eq_self c hu]
    exact ⟨h, toLower_eq_self c hu⟩

/-- Any decimal digit is a good authority character and none of the special
delimiters. -/
theorem digit_char_good (c : Char) (h : isDigitCL c = true) :
    goodAuthChar c ∧ c ≠ ':' ∧ c ≠ '@' := by
  unfold isDigitCL at h
  simp only [Bool.and_eq_true, decide_eq_true_eq] at h
  refine ⟨⟨?_, ?_, ?_, ?_, ?_⟩, ?_, ?_⟩
  · simp only [jsWs, Bool.or_eq_false_iff]
    refine ⟨⟨⟨⟨⟨?_, ?_⟩, ?_⟩, ?_⟩, ?_⟩, ?_⟩ <;>
      · simp only [beq_eq_false_iff_ne, ne_eq]
        rintro rfl
        revert h
        decide
  all_goals (rintro rfl; revert h; decide)

/-! ## The parser produces well-formed records -/

theorem parsePort_ok (pr scheme : List Char) (port : Option (List Char))
    (h : parsePort pr scheme = some port) :
    ∀ p, port = some p → p.all isDigitCL = true ∧ stripZeros p = p ∧
      digitsVal p ≤ 65535 ∧ digitsVal p ≠ defaultPortVal scheme := by
  unfold parsePort at h
  by_cases h1 : pr = []
  · rw [if_pos h1] at h
    rw [← Option.some.inj h]
    simp
  · rw [if_neg h1] at h
    by_cases h2 : pr.all isDigitCL = true
    · rw [if_pos h2] at h
      by_cases h3 : digitsVal pr > 65535
      · rw [if_pos h3] at h
        exact Option.noConfusion h
      · rw [if_neg h3] at h
        by_cases h4 : digitsVal pr = defaultPortVal scheme
        · rw [if_pos h4] at h
          rw [← Option.some.inj h]
          simp
        · rw [if_neg h4] at h
          rw [← Option.some.inj h]
          intro p hp
          have hps : p = stripZeros pr := Option.some.inj hp.symm
          subst hps
          refine ⟨stripZeros_all_digits pr h2, stripZeros_idem pr, ?_, ?_⟩
          · rw [stripZeros_val]; omega
          · rw [stripZeros_val]; exact h4
    · rw [if_neg h2] at h
      exact Option.noConfusion h

theorem parseAfterScheme_wf (scheme rest : List Char) (r : UrlRec)
    (hs : scheme = schemeHttp ∨ scheme = schemeHttps)
    (hws : ∀ c ∈ rest, jsWs c = false)
    (h : parseAfterScheme scheme rest = some r) : WfUrl r := by
  unfold parseAfterScheme at h
  simp only [] at h
  rcases hs1 : splitFirstAt '#' rest with ⟨beforeHash, frag⟩
  rw [hs1] at h
  rcases hs2 : splitFirstAt '?' beforeHash with ⟨core, query⟩
  rw [hs2] at h
  rcases hs3 : breakAt (fun c => c == '/' || c == '\\') core with ⟨auth, rawPath⟩
  rw [hs3] at h
  -- membership chains
  have hbh : ∀ c ∈ beforeHash, c ∈ rest ∧ c ≠ '#' := by
    intro c hc
    have := splitFirstAt_fst_spec '#' rest c (by rw [hs1]; exact hc)
    exact this
  have hcore : ∀ c ∈ core, c ∈ rest ∧ c ≠ '#' ∧ c ≠ '?' := by
    intro c hc
    have h1 := splitFirstAt_fst_spec '?' beforeHash c (by rw [hs2]; exact hc)
    have h2 := hbh c h1.1
    exact ⟨h2.1, h2.2, h1.2⟩
  have hauth : ∀ c ∈ auth, goodAuthChar c := by
    intro c hc
    have h1 := breakAt_fst_spec (fun c => c == '/' || c == '\\') core c
      (by rw [hs3]; exact hc)
    have h2 := hcore c h1.1
    have h3 : c ≠ '/' ∧ c ≠ '\\' := by
      have := h1.2
      simp only [Bool.or_eq_false_iff, beq_eq_false_iff_ne, ne_eq] at this
      exact this
    exact ⟨hws c h2.1, h3.1, h3.2, h2.2.2, h2.2.1⟩
  have hrawP : ∀ c ∈ rawPath, jsWs c = false ∧ c ≠ '#' ∧ c ≠ '?' := by
    intro c hc
    have h1 := breakAt_snd_sub (fun c => c == '/' || c == '\\') core c
      (by rw [hs3]; exact hc)
    have h2 := hcore c h1
    exact ⟨hws c h2.1, h2.2.1, h2.2.2⟩
  -- userinfo / hostport
  rcases hui : splitLastAt '@' auth with _ | ⟨uinfo, hostport⟩
  all_goals rw [hui] at h
  · have hhp : ∀ c ∈ auth, goodAuthChar c ∧ c ≠ '@' := by
      intro c hc
      exact ⟨hauth c hc, fun hcc => splitLastAt_none_not_mem '@' auth hui (hcc ▸ hc)⟩
    rcases hs4 : splitFirstAt ':' auth with ⟨hostRaw, portRaw⟩
    rw [hs4] at h
    rcases hpp : parsePort (portRaw.getD []) scheme with _ | port
    · rw [hpp] at h
      exact Option.noConfusion h
    · rw [hpp] at h
      dsimp only [] at h
      by_cases hhost : hostRaw.map Char.toLower = []
      · rw [if_pos hhost] at h
        exact Option.noConfusion h
      · rw [if_neg hhost] at h
        have hr := Option.some.inj h
        subst hr
        have hhostRaw : ∀ c ∈ hostRaw, goodAuthChar c ∧ c ≠ ':' ∧ c ≠ '@' := by
          intro c hc
          have h1 := splitFirstAt_fst_spec ':' auth c (by rw [hs4]; exact hc)
          have h2 := hhp c h1.1
          exact ⟨h2.1, h1.2, h2.2⟩
        refine ⟨hs, hhost, ?_, by simp, ?_, ?_, ?_, ?_⟩
        · intro c hc
          rcases List.mem_map.mp hc with ⟨c0, hc0, rfl⟩
          have := toLower_keeps_host_char c0 (hhostRaw c0 hc0)
          exact ⟨this.1.1, this.1.2.1, this.1.2.2, this.2⟩
        · exact parsePort_ok _ scheme port hpp
        · -- path
          by_cases hrp : rawPath = []
          · refine ⟨[], ?_, by simp⟩
            simp [normPathCL, hrp, joinSegs]
          · refine ⟨normSegs (splitSegs '/' ((rawPath.map bslToSlash).drop 1)), ?_, ?_⟩
            · simp [normPathCL, hrp]
            · intro s hsm
              refine ⟨?_, (normSegs_dotfree _ s hsm).1, (normSegs_dotfree _ s hsm).2⟩
              intro c hc
              rcases mem_normSegs _ s hsm with hsm2 | rfl
              · have h1 := mem_splitSegs_chars '/' _ s hsm2 c hc
                have h2 : c ∈ rawPath.map bslToSlash := List.mem_of_mem_drop h1.1
                rcases List.mem_map.mp h2 with ⟨c0, hc0, rfl⟩
                have h3 := hrawP c0 hc0
                by_cases hb : c0 = '\\'
                · subst hb
                  exact absurd (by decide) h1.2
                · have hbs : bslToSlash c0 = c0 := by simp [bslToSlash, hb]
                  rw [hbs] at h1 ⊢
                  exact ⟨h3.1, h1.2, hb, h3.2.2, h3.2.1⟩
              · simp at hc
        · intro q hq
          intro c hc
          have h1 := splitFirstAt_snd_sub '?' beforeHash q (by rw [hs2]; exact hq) c hc
          have h2 := hbh c h1
          exact ⟨hws c h2.1, h2.2⟩
        · intro f hf
          intro c hc
          have h1 := splitFirstAt_snd_sub '#' rest f (by rw [hs1]; exact hf) c hc
          exact hws c h1
  · have hdec := splitLastAt_eq_some '@' auth uinfo hostport hui
    have hhp : ∀ c ∈ hostport, goodAuthChar c ∧ c ≠ '@' := by
      intro c hc
      refine ⟨hauth c (by rw [hdec.1]; simp [hc]), fun hcc => hdec.2 (hcc ▸ hc)⟩
    rcases hs4 : splitFirstAt ':' hostport with ⟨hostRaw, portRaw⟩
    rw [hs4] at h
    rcases hpp : parsePort (portRaw.getD []) scheme with _ | port
    · rw [hpp] at h
      exact Option.noConfusion h
    · rw [hpp] at h
      dsimp only [] at h
      by_cases hhost : hostRaw.map Char.toLower = []
      · rw [if_pos hhost] at h
        exact Option.noConfusion h
      · rw [if_neg hhost] at h
        have hr := Option.some.inj h
        subst hr
        have hhostRaw : ∀ c ∈ hostRaw, goodAuthChar c ∧ c ≠ ':' ∧ c ≠ '@' := by
          intro c hc
          have h1 := splitFirstAt_fst_spec ':' hostport c (by rw [hs4]; exact hc)
          have h2 := hhp c h1.1
          exact ⟨h2.1, h1.2, h2.2⟩
        refine ⟨hs, hhost, ?_, ?_, ?_, ?_, ?_, ?_⟩
        · intro c hc
          rcases List.mem_map.mp hc with ⟨c0, hc0, rfl⟩
          have := toLower_keeps_host_char c0 (hhostRaw c0 hc0)
          exact ⟨this.1.1, this.1.2.1, this.1.2.2, this.2⟩
        · intro c hc
          exact hauth c (by rw [hdec.1]; simp [hc])
        · exact parsePort_ok _ scheme port hpp
        · by_cases hrp : rawPath = []
          · refine ⟨[], ?_, by simp⟩
            simp [normPathCL, hrp, joinSegs]
          · refine ⟨normSegs (splitSegs '/' ((rawPath.map bslToSlash).drop 1)), ?_, ?_⟩
            · simp [normPathCL, hrp]
            · intro s hsm
              refine ⟨?_, (normSegs_dotfree _ s hsm).1, (normSegs_dotfree _ s hsm).2⟩
              intro c hc
              rcases mem_normSegs _ s hsm with hsm2 | rfl
              · have h1 := mem_splitSegs_chars '/' _ s hsm2 c hc
                have h2 : c ∈ rawPath.map bslToSlash := List.mem_of_mem_drop h1.1
                rcases List.mem_map.mp h2 with ⟨c0, hc0, rfl⟩
                have h3 := hrawP c0 hc0
                by_cases hb : c0 = '\\'
                · subst hb
                  exact absurd (by decide) h1.2
                · have hbs : bslToSlash c0 = c0 := by simp [bslToSlash, hb]
                  rw [hbs] at h1 ⊢
                  exact ⟨h3.1, h1.2, hb, h3.2.2, h3.2.1⟩
              · simp at hc
        · intro q hq
          intro c hc
          have h1 := splitFirstAt_snd_sub '?' beforeHash q (by rw [hs2]; exact hq) c hc
          have h2 := hbh c h1
          exact ⟨hws c h2.1, h2.2⟩
        · intro f hf
          intro c hc
          have h1 := splitFirstAt_snd_sub '#' rest f (by rw [hs1]; exact hf) c hc
          exact hws c h1

theorem parseHttpUrl_wf (s : List Char) (r : UrlRec)
    (h : parseHttpUrl s = some r) : WfUrl r := by
  unfold parseHttpUrl at h
  by_cases hany : s.any jsWs = true
  · rw [if_pos hany] at h
    exact Option.noConfusion h
  · rw [if_neg hany] at h
    have hws : ∀ c ∈ s, jsWs c = false := by
      intro c hc
      rcases hb : jsWs c with _ | _
      · rfl
      · exact absurd (List.any_eq_true.mpr ⟨c, hc, hb⟩) hany
    rcases hstrip : stripLead httpsMark s with _ | rest
    · rw [hstrip] at h
      rcases hstrip2 : stripLead httpMark s with _ | rest2
      · rw [hstrip2] at h
        exact Option.noConfusion h
      · rw [hstrip2] at h
        have hdec := stripLead_eq_some httpMark s rest2 hstrip2
        refine parseAfterScheme_wf schemeHttp rest2 r (Or.inl rfl) ?_ h
        intro c hc
        exact hws c (by rw [hdec]; simp [hc])
    · rw [hstrip] at h
      have hdec := stripLead_eq_some httpsMark s rest hstrip
      refine parseAfterScheme_wf schemeHttps rest r (Or.inr rfl) ?_ h
      intro c hc
      exact hws c (by rw [hdec]; simp [hc])

/-! ## Round trip: parsing a serialized record recovers it -/

theorem map_id_on (f : Char → Char) (l : List Char) (h : ∀ c ∈ l, f c = c) :
    l.map f = l := by
  induction l with
  | nil => rfl
  | cons c r ih =>
    simp only [List.map_cons, h c (by simp)]
    rw [ih (fun c hc => h c (by simp [hc]))]

theorem mem_joinSegs (sep : Char) (L : List (List Char)) :
    ∀ c ∈ joinSegs sep L, c = sep ∨ ∃ s ∈ L, c ∈ s := by
  induction L with
  | nil => simp [joinSegs]
  | cons s ss ih =>
    cases ss with
    | nil =>
      intro c hc
      exact Or.inr ⟨s, by simp, hc⟩
    | cons s2 ss2 =>
      intro c hc
      rcases List.mem_append.mp hc with hc1 | hc2
      · exact Or.inr ⟨s, by simp, hc1⟩
      · rcases List.mem_cons.mp hc2 with rfl | hc3
        · exact Or.inl rfl
        · rcases ih c hc3 with h1 | ⟨s3, hs3, hcs3⟩
          · exact Or.inl h1
          · exact Or.inr ⟨s3, by simp [hs3], hcs3⟩

/-- Characters of the serialized authority of a well-formed record: no
whitespace and none of `/ \ ? #`. -/
theorem authPart_chars (r : UrlRec) (wf : WfUrl r) :
    ∀ c ∈ authPart r, goodAuthChar c := by
  intro c hc
  unfold authPart at hc
  rcases List.mem_append.mp hc with hc1 | hc2
  · rcases List.mem_append.mp hc1 with hc3 | hc4
    · unfold uinfoPart at hc3
      by_cases hu : r.userinfo = []
      · rw [if_pos hu] at hc3
        simp at hc3
      · rw [if_neg hu] at hc3
        rcases List.mem_append.mp hc3 with hc5 | hc6
        · exact wf.uinfo_chars c hc5
        · simp at hc6
          subst hc6
          exact ⟨by decide, by decide, by decide, by decide, by decide⟩
    · exact (wf.host_chars c hc4).1
  · unfold portPart at hc2
    rcases hp : r.port with _ | p
    · rw [hp] at hc2
      simp at hc2
    · rw [hp] at hc2
      rcases List.mem_cons.mp hc2 with rfl | hc3
      · exact ⟨by decide, by decide, by decide, by decide, by decide⟩
      · have hd := (wf.port_ok p hp).1
        rw [List.all_eq_true] at hd
        exact (digit_char_good c (hd c hc3)).1

/-- Characters of the path of a well-formed record: no whitespace, `?` or
`#`. -/
theorem path_chars (r : UrlRec) (wf : WfUrl r) :
    ∀ c ∈ r.path, jsWs c = false ∧ c ≠ '?' ∧ c ≠ '#' := by
  intro c hc
  rcases wf.path_ok with ⟨segs, hpath, hsegs⟩
  rw [hpath] at hc
  rcases List.mem_cons.mp hc with rfl | hc2
  · exact ⟨by decide, by decide, by decide⟩
  · rcases mem_joinSegs '/' segs c hc2 with rfl | ⟨s, hs, hcs⟩
    · exact ⟨by decide, by decide, by decide⟩
    · have := (hsegs s hs).1 c hcs
      exact ⟨this.1, this.2.2.2.1, this.2.2.2.2⟩

/-- Characters of the query section: no whitespace or `#`. -/
theorem queryPart_chars (r : UrlRec) (wf : WfUrl r) :
    ∀ c ∈ queryPart r, jsWs c = false ∧ c ≠ '#' := by
  intro c hc
  unfold queryPart at hc
  rcases hq : r.query with _ | q
  · rw [hq] at hc; simp at hc
  · rw [hq] at hc
    rcases List.mem_cons.mp hc with rfl | hc2
    · exact ⟨by decide, by decide⟩
    · exact wf.query_ok q hq c hc2

theorem fragPart_chars (r : UrlRec) (wf : WfUrl r) :
    ∀ c ∈ fragPart r, jsWs c = false := by
  intro c hc
  unfold fragPart at hc
  rcases hf : r.fragment with _ | f
  · rw [hf] at hc; simp at hc
  · rw [hf] at hc
    rcases List.mem_cons.mp hc with rfl | hc2
    · decide
    · exact wf.frag_ok f hf c hc2

theorem scheme_chars (r : UrlRec) (wf : WfUrl r) :
    ∀ c ∈ r.scheme, jsWs c = false := by
  intro c hc
  rcases wf.scheme_ok with h | h <;>
    · rw [h] at hc
      fin_cases hc <;> decide

/-- The serialization of a well-formed record contains no whitespace. -/
theorem hrefOf_ws_free (r : UrlRec) (wf : WfUrl r) :
    ∀ c ∈ hrefOf r, jsWs c = false := by
  intro c hc
  unfold hrefOf at hc
  rcases List.mem_append.mp hc with hc1 | hfrag
  · rcases List.mem_append.mp hc1 with hc2 | hquery
    · rcases List.mem_append.mp hc2 with hc3 | hpath
      · rcases List.mem_append.mp hc3 with hc4 | hauth
        · rcases List.mem_append.mp hc4 with hscheme | hdelim
          · exact scheme_chars r wf c hscheme
          · fin_cases hdelim <;> decide
        · exact (authPart_chars r wf c hauth).1
      · exact (path_chars r wf c hpath).1
    · exact (queryPart_chars r wf c hquery).1
  · exact fragPart_chars r wf c hfrag

/-- Path normalization is the identity on an already-normalized path. -/
theorem normPathCL_norm (segs : List (List Char))
    (hsegs : ∀ s ∈ segs, (∀ c ∈ s, goodAuthChar c) ∧ s ≠ segDot ∧ s ≠ segDotDot) :
    normPathCL ('/' :: joinSegs '/' segs) = '/' :: joinSegs '/' segs := by
  unfold normPathCL
  rw [if_neg (by simp)]
  have hmap : ('/' :: joinSegs '/' segs).map bslToSlash = '/' :: joinSegs '/' segs := by
    apply map_id_on
    intro c hc
    have hne : c ≠ '\\' := by
      rcases List.mem_cons.mp hc with rfl | hc2
      · decide
      · rcases mem_joinSegs '/' segs c hc2 with rfl | ⟨s, hs, hcs⟩
        · decide
        · exact ((hsegs s hs).1 c hcs).2.2.1
    simp [bslToSlash, hne]
  rw [hmap]
  simp only [List.drop_succ_cons, List.drop_zero]
  cases hsc : segs with
  | nil =>
    show '/' :: joinSegs '/' (normSegs (splitSegs '/' [])) = '/' :: joinSegs '/' []
    have h1 : splitSegs '/' ([] : List Char) = [[]] := rfl
    rw [h1]
    have h2 : normSegs [[]] = [[]] := normSegs_of_clean [[]] (by simp [segDot, segDotDot])
    rw [h2]
    rfl
  | cons s0 ss0 =>
    rw [← hsc]
    have hns : segs ≠ [] := by rw [hsc]; simp
    rw [splitSegs_joinSegs '/' segs hns
      (fun s hs hm => (((hsegs s hs).1 '/' hm).2.1) rfl)]
    rw [normSegs_of_clean segs (fun s hs => ⟨(hsegs s hs).2.1, (hsegs s hs).2.2⟩)]

theorem parseAfterScheme_roundtrip (r : UrlRec) (wf : WfUrl r) :
    parseAfterScheme r.scheme (authPart r ++ r.path ++ queryPart r ++ fragPart r) =
      some r := by
  rcases wf.path_ok with ⟨segs, hpath, hsegs⟩
  have hnoHash : '#' ∉ authPart r ++ r.path ++ queryPart r := by
    intro hm
    rcases List.mem_append.mp hm with hm1 | hmq
    · rcases List.mem_append.mp hm1 with hma | hmp
      · exact (authPart_chars r wf '#' hma).2.2.2.2 rfl
      · exact (path_chars r wf '#' hmp).2.2 rfl
    · exact (queryPart_chars r wf '#' hmq).2 rfl
  have hsplit1 : splitFirstAt '#' (authPart r ++ r.path ++ queryPart r ++ fragPart r) =
      (authPart r ++ r.path ++ queryPart r, r.fragment) := by
    rcases hf : r.fragment with _ | f
    · have he : fragPart r = [] := by simp [fragPart, hf]
      rw [he, List.append_nil]
      exact splitFirstAt_of_not_mem '#' _ hnoHash
    · have he : fragPart r = '#' :: f := by simp [fragPart, hf]
      rw [he]
      exact splitFirstAt_append '#' _ f hnoHash
  have hnoQ : '?' ∉ authPart r ++ r.path := by
    intro hm
    rcases List.mem_append.mp hm with hma | hmp
    · exact (authPart_chars r wf '?' hma).2.2.2.1 rfl
    · exact (path_chars r wf '?' hmp).2.1 rfl
  have hsplit2 : splitFirstAt '?' (authPart r ++ r.path ++ queryPart r) =
      (authPart r ++ r.path, r.query) := by
    rcases hq : r.query with _ | q
    · have he : queryPart r = [] := by simp [queryPart, hq]
      rw [he, List.append_nil]
      exact splitFirstAt_of_not_mem '?' _ hnoQ
    · have he : queryPart r = '?' :: q := by simp [queryPart, hq]
      rw [he]
      exact splitFirstAt_append '?' _ q hnoQ
  have hsplit3 : breakAt (fun c => c == '/' || c == '\\') (authPart r ++ r.path) =
      (authPart r, r.path) := by
    rw [hpath]
    exact breakAt_append _ (authPart r) (joinSegs '/' segs) '/'
      (by intro x hx
          have := authPart_chars r wf x hx
          simp only [Bool.or_eq_false_iff, beq_eq_false_iff_ne, ne_eq]
          exact ⟨this.2.1, this.2.2.1⟩)
      (by simp)
  have hnoAtHp : '@' ∉ r.host ++ portPart r := by
    intro hm
    rcases List.mem_append.mp hm with hmh | hmp
    · exact (wf.host_chars '@' hmh).2.2.1 rfl
    · unfold portPart at hmp
      rcases hp : r.port with _ | p
      · rw [hp] at hmp; simp at hmp
      · rw [hp] at hmp
        rcases List.mem_cons.mp hmp with heq | hm2
        · exact absurd heq (by decide)
        · have hd := (wf.port_ok p hp).1
          rw [List.all_eq_true] at hd
          exact (digit_char_good '@' (hd '@' hm2)).2.2 rfl
  have hsplit4 : splitLastAt '@' (authPart r) =
      (if r.userinfo = [] then none else some (r.userinfo, r.host ++ portPart r)) := by
    by_cases hu : r.userinfo = []
    · rw [if_pos hu]
      have he : authPart r = r.host ++ portPart r := by
        simp [authPart, uinfoPart, hu]
      rw [he]
      exact splitLastAt_of_not_mem '@' _ hnoAtHp
    · rw [if_neg hu]
      have he : authPart r = r.userinfo ++ '@' :: (r.host ++ portPart r) := by
        simp [authPart, uinfoPart, hu]
      rw [he]
      exact splitLastAt_append '@' _ _ hnoAtHp
  have hnoColonHost : ':' ∉ r.host := by
    intro hm
    exact (wf.host_chars ':' hm).2.1 rfl
  have hsplit5 : splitFirstAt ':' (r.host ++ portPart r) =
      (r.host, match r.port with | none => none | some p => some p) := by
    rcases hp : r.port with _ | p
    · have he : portPart r = [] := by simp [portPart, hp]
      rw [he, List.append_nil]
      exact splitFirstAt_of_not_mem ':' _ hnoColonHost
    · have he : portPart r = ':' :: p := by simp [portPart, hp]
      rw [he]
      exact splitFirstAt_append ':' _ p hnoColonHost
  have hport : ∀ p, r.port = some p → parsePort p r.scheme = some (some p) := by
    intro p hp
    have hpo := wf.port_ok p hp
    have hpne : p ≠ [] := by
      intro he
      exact stripZeros_ne_nil p (by rw [hpo.2.1]; exact he)
    unfold parsePort
    rw [if_neg hpne, if_pos hpo.1, if_neg (by omega), if_neg hpo.2.2.2, hpo.2.1]
  have hhostmap : r.host.map Char.toLower = r.host :=
    map_id_on _ _ (fun c hc => (wf.host_chars c hc).2.2.2)
  have hnormP : normPathCL r.path = r.path := by
    rw [hpath]
    exact normPathCL_norm segs hsegs
  unfold parseAfterScheme
  rw [hsplit1]
  simp only []
  rw [hsplit2]
  simp only []
  rw [hsplit3]
  simp only []
  rw [hsplit4]
  by_cases hu : r.userinfo = []
  · rw [if_pos hu]
    dsimp only []
    rw [show authPart r = r.host ++ portPart r from by simp [authPart, uinfoPart, hu]]
    rw [hsplit5]
    dsimp only []
    rcases hp : r.port with _ | p
    · dsimp only [Option.getD_none]
      have hpp : parsePort [] r.scheme = some none := rfl
      rw [hpp]
      dsimp only []
      rw [hhostmap, if_neg wf.host_ne, hnormP]
      rw [← hu, ← hp]
    · dsimp only [Option.getD_some]
      rw [hport p hp]
      dsimp only []
      rw [hhostmap, if_neg wf.host_ne, hnormP]
      rw [← hu, ← hp]
  · rw [if_neg hu]
    dsimp only []
    rw [hsplit5]
    dsimp only []
    rcases hp : r.port with _ | p
    · dsimp only [Option.getD_none]
      have hpp : parsePort [] r.scheme = some none := rfl
      rw [hpp]
      dsimp only []
      rw [hhostmap, if_neg wf.host_ne, hnormP]
      rw [← hp]
    · dsimp only [Option.getD_some]
      rw [hport p hp]
      dsimp only []
      rw [hhostmap, if_neg wf.host_ne, hnormP]
      rw [← hp]

/-- Shape of the serialization: the scheme marker followed by the rest. -/
theorem hrefOf_form (r : UrlRec) (wf : WfUrl r) :
    (r.scheme = schemeHttp ∧
      hrefOf r = httpMark ++ (authPart r ++ r.path ++ queryPart r ++ fragPart r)) ∨
    (r.scheme = schemeHttps ∧
      hrefOf r = httpsMark ++ (authPart r ++ r.path ++ queryPart r ++ fragPart r)) := by
  rcases wf.scheme_ok with hsch | hsch
  · refine Or.inl ⟨hsch, ?_⟩
    unfold hrefOf
    rw [hsch]
    simp [schemeHttp, httpMark, List.append_assoc]
  · refine Or.inr ⟨hsch, ?_⟩
    unfold hrefOf
    rw [hsch]
    simp [schemeHttps, httpsMark, List.append_assoc]

theorem stripLead_https_httpMark (l : List Char) :
    stripLead httpsMark (httpMark ++ l) = none := rfl

theorem parseHttpUrl_roundtrip (r : UrlRec) (wf : WfUrl r) :
    parseHttpUrl (hrefOf r) = some r := by
  unfold parseHttpUrl
  have hany : (hrefOf r).any jsWs = false := by
    rcases hb : (hrefOf r).any jsWs with _ | _
    · rfl
    · exfalso
      rcases List.any_eq_true.mp hb with ⟨c, hc, hwc⟩
      rw [hrefOf_ws_free r wf c hc] at hwc
      exact Bool.noConfusion hwc
  rw [if_neg (by simp [hany])]
  rcases hrefOf_form r wf with ⟨hsch, hform⟩ | ⟨hsch, hform⟩
  · rw [hform, stripLead_https_httpMark, stripLead_append]
    dsimp only []
    rw [← hsch]
    exact parseAfterScheme_roundtrip r wf
  · rw [hform, stripLead_append]
    dsimp only []
    rw [← hsch]
    exact parseAfterScheme_roundtrip r wf

/-- The central idempotence property: re-sanitizing any output of
`sanitizeChars` is the identity. -/
theorem sanitizeChars_idem (l h : List Char) (hs : sanitizeChars l = some h) :
    sanitizeChars h = some h := by
  simp only [sanitizeChars] at hs
  obtain ⟨r, hr, hh⟩ := Option.map_eq_some'.mp hs
  have wf := parseHttpUrl_wf _ r hr
  subst hh
  unfold sanitizeChars
  have htrim : trimCL (hrefOf r) = hrefOf r := trimCL_eq_self _ (hrefOf_ws_free r wf)
  rw [htrim]
  dsimp only []
  have hstart : (startsWithCL httpMark (hrefOf r) || startsWithCL httpsMark (hrefOf r)) = true := by
    rcases hrefOf_form r wf with ⟨_, hform⟩ | ⟨_, hform⟩
    · rw [hform, startsWithCL_append]
      simp
    · rw [hform, startsWithCL_append]
      simp
  rw [if_pos hstart, parseHttpUrl_roundtrip r wf]
  rfl

/-! ## Helper lemmas: scheduler and tracer -/

theorem chunksOfAux_flatten (f : Nat) : ∀ (n : Nat) (l : List α), 0 < n →
    l.length ≤ f → (chunksOfAux f n l).flatten = l := by
  induction f with
  | zero =>
    intro n l hn hl
    cases l with
    | nil => cases n <;> rfl
    | cons a t => simp at hl
  | succ f ih =>
    intro n l hn hl
    cases l with
    | nil => cases n <;> rfl
    | cons a t =>
      cases n with
      | zero => omega
      | succ m =>
        show (((a :: t).take (m + 1)) :: chunksOfAux f (m + 1) (t.drop m)).flatten = a :: t
        rw [List.flatten_cons,
          ih (m + 1) (t.drop m) (by omega) (by simp only [List.length_drop]; simp at hl; omega)]
        show a :: (t.take m ++ t.drop m) = a :: t
        rw [List.take_append_drop]

theorem chunksOf_flatten (n : Nat) (l : List α) (hn : 0 < n) :
    (chunksOf n l).flatten = l :=
  chunksOfAux_flatten l.length n l hn (le_refl _)

/-- The scheduler's result list is the pointwise settlement of the input
list: windowing is invisible in the output. -/
theorem processLinks_eq_map (probe : String → Settled) (links : List String) :
    processLinksWithConcurrency probe links = links.map (settleSlot probe) := by
  unfold processLinksWithConcurrency
  have h1 : ∀ L : List (List String),
      L.flatMap (fun batch => batch.map (settleSlot probe)) =
        L.flatten.map (settleSlot probe) := by
    intro L
    induction L with
    | nil => rfl
    | cons b bs ih => simp [ih]
  rw [h1, chunksOf_flatten maxConcurrency links (by decide)]

theorem redirectLoop_succ (net : String → TraceFetch)
    (resolve : String → String → Option String) (f : Nat) (cur : String)
    (acc : List RedirHop) :
    redirectLoop net resolve (f + 1) cur acc =
      match net cur with
      | .fail => acc
      | .resp st loc =>
        if 300 ≤ st ∧ st < 400 then
          match loc with
          | some l =>
            match resolve l cur with
            | some nxt => redirectLoop net resolve f nxt (acc ++ [⟨cur, st, l⟩])
            | none => acc ++ [⟨cur, st, l⟩]
          | none => acc
        else acc := rfl

theorem redirectLoop_length (net : String → TraceFetch)
    (resolve : String → String → Option String) :
    ∀ (fuel : Nat) (cur : String) (acc : List RedirHop),
      (redirectLoop net resolve fuel cur acc).length ≤ acc.length + fuel := by
  intro fuel
  induction fuel with
  | zero => intro cur acc; simp [redirectLoop]
  | succ f ih =>
    intro cur acc
    rw [redirectLoop_succ]
    rcases hn : net cur with _ | ⟨st, loc⟩
    · simp
    · simp only []
      by_cases hst : 300 ≤ st ∧ st < 400
      · rw [if_pos hst]
        rcases loc with _ | lc
        · simp
        · simp only []
          rcases hr : resolve lc cur with _ | nxt
          · simp
          · dsimp only []
            have hle := ih nxt (acc ++ [(⟨cur, st, lc⟩ : RedirHop)])
            simp only [List.length_append, List.length_singleton] at hle
            omega
      · rw [if_neg hst]
        simp

theorem redirectLoop_fail (net : String → TraceFetch)
    (resolve : String → String → Option String) (fuel : Nat) (cur : String)
    (acc : List RedirHop) (h : net cur = .fail) :
    redirectLoop net resolve fuel cur acc = acc := by
  cases fuel with
  | zero => rfl
  | succ f =>
    rw [redirectLoop_succ, h]

/-! ## The claims -/

/-- Claim C1 (code bug): `generateSummary` is supposed to keep per-status
counts summing to `total`, but it never initializes an `error` counter; a
result with status `error` increments the undefined `error` property
(`undefined + 1 = NaN`), so for the one-element list holding the scheduler's
own synthetic error result the four real counters sum to `0`, the `error`
property is `NaN` (`sumCounts` is `none`), and neither equals `total = 1`. -/
theorem spec_C1_summary_error_status_mismatch :
    (generateSummary [demoErrorResult]).total = 1 ∧
    sumCounts (generateSummary [demoErrorResult]) = none ∧
    (generateSummary [demoErrorResult]).healthy + (generateSummary [demoErrorResult]).broken +
      (generateSummary [demoErrorResult]).warning +
      (generateSummary [demoErrorResult]).redirect = 0 := by
  refine ⟨rfl, rfl, rfl⟩

/-- Claim C2: the batch scheduler emits exactly one `ProbeResult` per input
URL and in input order — its whole output equals the pointwise settlement of
the input list, windowing and all. -/
theorem spec_C2_scheduler_one_result_per_url_in_order
    (probe : String → Settled) (links : List String) :
    processLinksWithConcurrency probe links = links.map (settleSlot probe) ∧
    (processLinksWithConcurrency probe links).length = links.length := by
  refine ⟨processLinks_eq_map probe links, ?_⟩
  rw [processLinks_eq_map probe links]
  exact List.length_map links (settleSlot probe)

/-- Claim C3: response classification follows the fixed precedence — status
`≥ 400` is `broken` with the reason-phrase table message (`HTTP <code>`
fallback), else time above 5000 ms is a `warning`, else `[300, 400)` is a
`redirect`, else `healthy`/`OK` — and `checkSingleLink`'s response path uses
exactly this classification. -/
theorem spec_C3_classification_precedence (s t : Nat) :
    (400 ≤ s → classifyResponse s t = (.broken, getStatusMessage s)) ∧
    (s < 400 → 5000 < t → classifyResponse s t = (.warning, "Slow Response")) ∧
    (s < 400 → t ≤ 5000 → 300 ≤ s → classifyResponse s t = (.redirect, "Redirect")) ∧
    (s < 300 → t ≤ 5000 → classifyResponse s t = (.healthy, "OK")) ∧
    (getStatusMessage 400 = "Bad Request" ∧ getStatusMessage 401 = "Unauthorized" ∧
      getStatusMessage 403 = "Forbidden" ∧ getStatusMessage 404 = "Not Found" ∧
      getStatusMessage 429 = "Too Many Requests" ∧
      getStatusMessage 500 = "Internal Server Error" ∧
      getStatusMessage 502 = "Bad Gateway" ∧ getStatusMessage 503 = "Service Unavailable" ∧
      getStatusMessage 504 = "Gateway Timeout") ∧
    (s ≠ 400 → s ≠ 401 → s ≠ 403 → s ≠ 404 → s ≠ 429 → s ≠ 500 → s ≠ 502 → s ≠ 503 →
      s ≠ 504 → getStatusMessage s = "HTTP " ++ toString s) ∧
    (∀ (net : String → TraceFetch) (resolve : String → String → Option String)
        (finalUrl : String) (headers : CapturedHeaders) (url : String)
        (opts : ProbeOptions),
      (checkSingleLink net resolve (.ok s finalUrl headers t) url opts).status =
          (classifyResponse s t).1 ∧
        (checkSingleLink net resolve (.ok s finalUrl headers t) url opts).message =
          (classifyResponse s t).2 ∧
        (checkSingleLink net resolve (.ok s finalUrl headers t) url opts).statusCode =
          .num s) := by
  refine ⟨?_, ?_, ?_, ?_, by decide, ?_, ?_⟩
  · intro h
    unfold classifyResponse
    rw [if_pos h]
  · intro h1 h2
    unfold classifyResponse
    rw [if_neg (by omega), if_pos h2]
  · intro h1 h2 h3
    unfold classifyResponse
    rw [if_neg (by omega), if_neg (by omega), if_pos ⟨h3, h1⟩]
  · intro h1 h2
    unfold classifyResponse
    rw [if_neg (by omega), if_neg (by omega), if_neg (by omega)]
  · intro h1 h2 h3 h4 h5 h6 h7 h8 h9
    unfold getStatusMessage
    rw [if_neg h1, if_neg h2, if_neg h3, if_neg h4, if_neg h5, if_neg h6, if_neg h7,
      if_neg h8, if_neg h9]
  · intro net resolve finalUrl headers url opts
    exact ⟨rfl, rfl, rfl⟩

/-- Claim C3 witness: the four branches and the fallback at concrete
inputs. -/
theorem spec_C3_classification_precedence_witness :
    classifyResponse 404 100 = (.broken, getStatusMessage 404) ∧
    classifyResponse 200 6000 = (.warning, "Slow Response") ∧
    classifyResponse 301 100 = (.redirect, "Redirect") ∧
    classifyResponse 200 100 = (.healthy, "OK") ∧
    getStatusMessage 418 = "HTTP " ++ toString 418 :=
  ⟨(spec_C3_classification_precedence 404 100).1 (by decide),
   (spec_C3_classification_precedence 200 6000).2.1 (by decide) (by decide),
   (spec_C3_classification_precedence 301 100).2.2.1 (by decide) (by decide) (by decide),
   (spec_C3_classification_precedence 200 100).2.2.2.1 (by decide) (by decide),
   (spec_C3_classification_precedence 418 0).2.2.2.2.2.1 (by decide) (by decide) (by decide)
     (by decide) (by decide) (by decide) (by decide) (by decide) (by decide)⟩

/-- Claim C4 counterexample: the claim says a non-timeout failure never
receives "Request Timeout" and that an expired certificate maps to "SSL
Certificate Expired"; but the catch block's third branch also matches on
`error.name === 'FetchError'`, so a connection-reset FetchError and even an
expired-certificate FetchError both yield "Request Timeout". -/
theorem spec_C4_error_table_cex :
    errorMessage (some "ECONNRESET") "FetchError" = "Request Timeout" ∧
    errorMessage (some "CERT_HAS_EXPIRED") "FetchError" = "Request Timeout" := by
  refine ⟨rfl, rfl⟩

/-- Claim C4 (amended): the failure-message table with its real precedence:
DNS, refused, then (timeout OR any error named `FetchError`), then expired
certificate, then the generic fallback; and the thrown path of
`checkSingleLink` is `broken` with exactly this message. -/
theorem spec_C4_error_table_amended (code : Option String) (name : String) :
    (code = some "ENOTFOUND" → errorMessage code name = "DNS Resolution Failed") ∧
    (code ≠ some "ENOTFOUND" → code = some "ECONNREFUSED" →
      errorMessage code name = "Connection Refused") ∧
    (code ≠ some "ENOTFOUND" → code ≠ some "ECONNREFUSED" →
      (code = some "ETIMEDOUT" ∨ name = "FetchError") →
      errorMessage code name = "Request Timeout") ∧
    (code ≠ some "ENOTFOUND" → code ≠ some "ECONNREFUSED" → code ≠ some "ETIMEDOUT" →
      name ≠ "FetchError" → code = some "CERT_HAS_EXPIRED" →
      errorMessage code name = "SSL Certificate Expired") ∧
    (code ≠ some "ENOTFOUND" → code ≠ some "ECONNREFUSED" → code ≠ some "ETIMEDOUT" →
      name ≠ "FetchError" → code ≠ some "CERT_HAS_EXPIRED" →
      errorMessage code name = "Connection Failed") ∧
    (∀ (msg : String) (t : Nat) (net : String → TraceFetch)
        (resolve : String → String → Option String) (url : String)
        (opts : ProbeOptions),
      (checkSingleLink net resolve (.thrown code name msg t) url opts).status = .broken ∧
        (checkSingleLink net resolve (.thrown code name msg t) url opts).message =
          errorMessage code name) := by
  refine ⟨?_, ?_, ?_, ?_, ?_, ?_⟩
  · intro h
    unfold errorMessage
    rw [if_pos h]
  · intro h1 h2
    unfold errorMessage
    rw [if_neg h1, if_pos h2]
  · intro h1 h2 h3
    unfold errorMessage
    rw [if_neg h1, if_neg h2, if_pos h3]
  · intro h1 h2 h3 h4 h5
    unfold errorMessage
    rw [if_neg h1, if_neg h2, if_neg (by rintro (hx | hx); exact h3 hx; exact h4 hx),
      if_pos h5]
  · intro h1 h2 h3 h4 h5
    unfold errorMessage
    rw [if_neg h1, if_neg h2, if_neg (by rintro (hx | hx); exact h3 hx; exact h4 hx),
      if_neg h5]
  · intro msg t net resolve url opts
    exact ⟨rfl, rfl⟩

/-- Claim C4 witness: each table row at a concrete input. -/
theorem spec_C4_error_table_amended_witness :
    errorMessage (some "ENOTFOUND") "FetchError" = "DNS Resolution Failed" ∧
    errorMessage (some "ECONNREFUSED") "FetchError" = "Connection Refused" ∧
    errorMessage (some "ETIMEDOUT") "Error" = "Request Timeout" ∧
    errorMessage (some "CERT_HAS_EXPIRED") "Error" = "SSL Certificate Expired" ∧
    errorMessage none "TypeError" = "Connection Failed" :=
  ⟨(spec_C4_error_table_amended (some "ENOTFOUND") "FetchError").1 (by decide),
   (spec_C4_error_table_amended (some "ECONNREFUSED") "FetchError").2.1
     (by decide) (by decide),
   (spec_C4_error_table_amended (some "ETIMEDOUT") "Error").2.2.1
     (by decide) (by decide) (Or.inl (by decide)),
   (spec_C4_error_table_amended (some "CERT_HAS_EXPIRED") "Error").2.2.2.1
     (by decide) (by decide) (by decide) (by decide) (by decide),
   (spec_C4_error_table_amended none "TypeError").2.2.2.2.1
     (by decide) (by decide) (by decide) (by decide) (by decide)⟩

/-- Claim C5 (code bug): the 200 ms pacing sleep sits inside the loop body
guarded only by `batches.length > 1`, so with two windows (nine links) the
trace carries a delay after the last window as well — two delays, the final
event being a delay — contradicting "no delay after the last window"; a
single-window batch indeed has no delay. -/
theorem spec_C5_trailing_delay :
    (chunksOf maxConcurrency demoLinks9).length = 2 ∧
    schedulerTrace demoLinks9 =
      [.window (demoLinks9.take 8), .delay 200, .window ["https://i.example/"], .delay 200] ∧
    delayCount (schedulerTrace demoLinks9) = 2 ∧
    (schedulerTrace demoLinks9).getLast? = some (.delay 200) ∧
    schedulerTrace ["https://a.example/"] = [.window ["https://a.example/"]] := by
  refine ⟨rfl, by decide, rfl, by decide, by decide⟩

/-- Claim C6: a probe promise that rejects leaves, in its own slot, the
synthetic result with status `error`, statusCode `"PROCESSING_ERROR"`, the
slot's URL and zero response time, while every other slot and the batch
length are untouched. -/
theorem spec_C6_processing_error_isolation (probe : String → Settled)
    (links : List String) (i : Nat) (hi : i < links.length) (reason : Option String)
    (hrej : probe links[i] = .rejected reason) :
    (processLinksWithConcurrency probe links).length = links.length ∧
    (∀ hi2 : i < (processLinksWithConcurrency probe links).length,
      (processLinksWithConcurrency probe links)[i] =
        { url := links[i], status := .error, statusCode := .str "PROCESSING_ERROR",
          message := "Failed to process", responseTime := 0, redirectChain := none,
          sslValid := none, headers := none,
          errorDetail := some (jsOrStr reason "Unknown error") }) ∧
    (∀ (j : Nat) (hj : j < links.length)
        (hj2 : j < (processLinksWithConcurrency probe links).length),
      (processLinksWithConcurrency probe links)[j] = settleSlot probe links[j]) := by
  have hmap := processLinks_eq_map probe links
  refine ⟨by rw [hmap]; exact List.length_map links (settleSlot probe), ?_, ?_⟩
  · intro hi2
    simp only [hmap, List.getElem_map]
    unfold settleSlot
    rw [hrej]
  · intro j hj hj2
    simp only [hmap, List.getElem_map]

/-- Claim C6 witness: in a two-link batch whose second probe rejects with
reason "boom", slot 1 is the synthetic error result and slot 0 the fulfilled
one. -/
theorem spec_C6_processing_error_isolation_witness :
    (processLinksWithConcurrency demoProbeC6 demoLinksC6).length = demoLinksC6.length ∧
    (processLinksWithConcurrency demoProbeC6 demoLinksC6).get ⟨1, by decide⟩ =
      { url := "https://boom.example/", status := .error,
        statusCode := .str "PROCESSING_ERROR", message := "Failed to process",
        responseTime := 0, redirectChain := none, sslValid := none, headers := none,
        errorDetail := some (jsOrStr (some "boom") "Unknown error") } :=
  ⟨(spec_C6_processing_error_isolation demoProbeC6 demoLinksC6 1 (by decide)
      (some "boom") (by decide)).1,
   (spec_C6_processing_error_isolation demoProbeC6 demoLinksC6 1 (by decide)
      (some "boom") (by decide)).2.1 (by decide)⟩

/-- Claim C7: malformed, empty, oversized, and zero-valid-URL batches are all
rejected with their distinct errors; the oversized rejection ignores the
content of the links entirely, and every rejection is independent of the
probing network — no probe result is ever produced on a rejection path. -/
theorem spec_C7_input_rejection (probe probe2 : String → Settled) (vals : List JsVal) :
    handler probe .malformedBody = .rejected 500 "Internal server error" ∧
    handler probe .linksNotArray = .rejected 400 "Invalid links array" ∧
    (vals.length = 0 → handler probe (.links vals) = .rejected 400 "Invalid links array") ∧
    (vals.length > 50 →
      handler probe (.links vals) = .rejected 429 "Maximum 50 links per request") ∧
    (0 < vals.length → vals.length ≤ 50 →
      ((vals.filterMap sanitizeUrl).filter (fun l => l ≠ "" && validateUrl l)).length = 0 →
      handler probe (.links vals) = .rejected 400 "No valid URLs provided") ∧
    (∀ (st : Nat) (msg : String), handler probe (.links vals) = .rejected st msg →
      handler probe2 (.links vals) = .rejected st msg) := by
  refine ⟨rfl, rfl, ?_, ?_, ?_, ?_⟩
  · intro h0
    unfold handler
    dsimp only []
    rw [if_pos h0]
  · intro h50
    have h50m : vals.length > maxLinksPerRequest := h50
    unfold handler
    dsimp only []
    rw [if_neg (by omega), if_pos h50m]
  · intro hpos hle hz
    unfold handler
    dsimp only []
    rw [if_neg (by omega), if_neg (by simp only [maxLinksPerRequest]; omega)]
    rw [if_pos hz]
  · intro st msg hrej
    unfold handler at hrej ⊢
    dsimp only [] at hrej ⊢
    by_cases h0 : vals.length = 0
    · rw [if_pos h0] at hrej ⊢
      exact hrej
    · rw [if_neg h0] at hrej ⊢
      by_cases h50 : vals.length > maxLinksPerRequest
      · rw [if_pos h50] at hrej ⊢
        exact hrej
      · rw [if_neg h50] at hrej ⊢
        by_cases hz : ((vals.filterMap sanitizeUrl).filter
            (fun l => l ≠ "" && validateUrl l)).length = 0
        · rw [if_pos hz] at hrej ⊢
          exact hrej
        · rw [if_neg hz] at hrej ⊢
          exact HandlerOutcome.noConfusion hrej

/-- Claim C7 witness: the four rejection classes at concrete requests, and
probe-independence of the oversized rejection. -/
theorem spec_C7_input_rejection_witness :
    handler demoProbeC7 .malformedBody = .rejected 500 "Internal server error" ∧
    handler demoProbeC7 .linksNotArray = .rejected 400 "Invalid links array" ∧
    handler demoProbeC7 (.links []) = .rejected 400 "Invalid links array" ∧
    handler demoProbeC7 (.links demoLinks51) = .rejected 429 "Maximum 50 links per request" ∧
    handler demoProbeC7 (.links [.str "http://10.0.0.5/"]) =
      .rejected 400 "No valid URLs provided" ∧
    handler demoProbeC6 (.links demoLinks51) = .rejected 429 "Maximum 50 links per request" :=
  ⟨(spec_C7_input_rejection demoProbeC7 demoProbeC7 []).1,
   (spec_C7_input_rejection demoProbeC7 demoProbeC7 []).2.1,
   (spec_C7_input_rejection demoProbeC7 demoProbeC7 []).2.2.1 (by decide),
   (spec_C7_input_rejection demoProbeC7 demoProbeC7 demoLinks51).2.2.2.1 (by decide),
   (spec_C7_input_rejection demoProbeC7 demoProbeC7 [.str "http://10.0.0.5/"]).2.2.2.2.1
     (by decide) (by decide) (by decide),
   (spec_C7_input_rejection demoProbeC7 demoProbeC6 demoLinks51).2.2.2.2.2 429
     "Maximum 50 links per request"
     ((spec_C7_input_rejection demoProbeC7 demoProbeC7 demoLinks51).2.2.2.1 (by decide))⟩

/-- Claim C8: sanitization is idempotent — re-sanitizing any non-null output
of `sanitizeUrl` returns it unchanged. -/
theorem spec_C8_sanitize_idempotent (s h : String)
    (hs : sanitizeUrl (.str s) = some h) : sanitizeUrl (.str h) = some h := by
  simp only [sanitizeUrl] at hs ⊢
  obtain ⟨l, hl, hh⟩ := Option.map_eq_some'.mp hs
  subst hh
  show (sanitizeChars l).map (fun l => String.mk l) = some (String.mk l)
  rw [sanitizeChars_idem s.data l hl]
  rfl

/-- Claim C8 witness: `example.com` normalizes to `https://example.com/`,
which re-sanitizes to itself. -/
theorem spec_C8_sanitize_idempotent_witness :
    sanitizeUrl (.str "example.com") = some "https://example.com/" ∧
    sanitizeUrl (.str "https://example.com/") = some "https://example.com/" :=
  ⟨by decide,
   spec_C8_sanitize_idempotent "example.com" "https://example.com/" (by decide)⟩

/-- Claim C9: the redirect tracer (a total function whose fuel is the
decremented `maxRedirects` counter) records between 1 and 5 hops whenever it
returns a chain, returns `null` — never an empty sequence — when no hop was
recorded, and a request failure at any hop just returns the hops collected so
far. -/
theorem spec_C9_tracer_bounded (net : String → TraceFetch)
    (resolve : String → String → Option String) (url : String) :
    (∀ chain, getRedirectChain net resolve url = some chain →
      1 ≤ chain.length ∧ chain.length ≤ 5) ∧
    (redirectLoop net resolve 5 url [] = [] → getRedirectChain net resolve url = none) ∧
    (∀ (fuel : Nat) (cur : String) (acc : List RedirHop), net cur = .fail →
      redirectLoop net resolve fuel cur acc = acc) := by
  refine ⟨?_, ?_, fun fuel cur acc h => redirectLoop_fail net resolve fuel cur acc h⟩
  · intro chain hc
    unfold getRedirectChain at hc
    by_cases hl : (redirectLoop net resolve 5 url []).length > 0
    · rw [if_pos hl] at hc
      have hce := Option.some.inj hc
      subst hce
      have hb := redirectLoop_length net resolve 5 url []
      simp only [List.length_nil] at hb
      omega
    · rw [if_neg hl] at hc
      exact Option.noConfusion hc
  · intro h0
    unfold getRedirectChain
    rw [h0]
    simp

/-- Claim C9 witness: a network that always redirects yields exactly the
5-hop chain; a network that always fails yields no chain and `null`. -/
theorem spec_C9_tracer_bounded_witness :
    (1 ≤ demoChain.length ∧ demoChain.length ≤ 5) ∧
    getRedirectChain demoNetFail demoResolve "https://start.example/" = none ∧
    redirectLoop demoNetFail demoResolve 5 "https://dead.example/" [] = [] :=
  ⟨(spec_C9_tracer_bounded demoNet demoResolve "https://start.example/").1 demoChain
     (by decide),
   (spec_C9_tracer_bounded demoNetFail demoResolve "https://start.example/").2.1
     (by decide),
   (spec_C9_tracer_bounded demoNetFail demoResolve "https://start.example/").2.2 5
     "https://dead.example/" [] (by decide)⟩

/-- Claim C10 (implicit): `checkSingleLink` never sets `sslValid` to `false`:
the response path yields `true` or `null` and the failure path always
`null`. -/
theorem spec_C10_sslValid_never_false (net : String → TraceFetch)
    (resolve : String → String → Option String) (outcome : FetchOutcome)
    (url : String) (opts : ProbeOptions) :
    (checkSingleLink net resolve outcome url opts).sslValid = some true ∨
    (checkSingleLink net resolve outcome url opts).sslValid = none := by
  cases outcome with
  | ok st finalUrl headers t =>
    unfold checkSingleLink
    dsimp only []
    by_cases hc : startsWithCL "https:".data url.data ∧ opts.checkSSL ≠ some false
    · rw [if_pos hc]
      exact Or.inl rfl
    · rw [if_neg hc]
      exact Or.inr rfl
  | thrown code name msg t =>
    exact Or.inr rfl

end LinkCheck
